import Mathlib

/-!
# Lifecycle hooks of `pkg/hive` (`lifecycle.go`)

A shallow embedding of `DefaultLifecycle` and of its `Append`, `Start` and
`Stop` methods, followed by theorems about the order in which hook
procedures run, the `numStarted` counter and the errors that are returned.

Modelling conventions.

* Hook procedures are Go closures with arbitrary side effects.  They are
  embedded as state transformers over an arbitrary world type `σ`: a
  procedure receives the context and the current world and gives back its
  `error` result together with the next world.  Whatever a context reports
  (`ctx.Err()`) is read from the world as well, so that a deadline can pass
  or a cancellation can happen while hooks run.
* A Go `error` is `Option GoError`; `none` is `nil`.
* `numStarted` is a Go `int`.  It is only ever incremented once per hook of a
  slice and decremented while positive, so it stays far away from the ends
  of the 64-bit range; it is embedded as a `Nat`.
* The logger and the clock used for durations have no influence on results
  and are left out.  `Start` and `Stop` proper leave out the mutex and take
  the hook procedures not to touch the lifecycle that runs them; three
  refinements built on the same loops add what is left out: `StartScoped` and
  `StopScoped` spell out the child context and its deferred cancel,
  `SharedLifecycle` keeps the registry in the world so that hook procedures
  can append to it, and the `Accesses` functions list the steps of each
  method on the mutex, the fields and the hooks.
* `Start` and `Stop` additionally give back the list of hook procedures they
  invoked (`calls`), each with the result it returned.  This list is
  bookkeeping of the embedding; no value computed by the code depends on it.
-/

namespace Hive

/-! ## Errors and contexts -/

/-- A Go `error` value other than `nil`.  `msg` stands for an error made by a
hook or by a context, `multi` for the value that combines a list of errors. -/
inductive GoError where
  | msg (s : String)
  | multi (errs : List GoError)

/-- Modelled from the spec: `multierr.Combine` of the vendored package
`go.uber.org/multierr`, whose source is missing.  The spec describes it as
returning "the aggregate as a single combined error (or no error if the list
is empty)", the combined error being "a single error value representing the
union of all individual stop-procedure failures". -/
def Combine : List GoError → Option GoError
  | [] => none
  | e :: es => some (GoError.multi (e :: es))

/-- The errors held by an `error` result: none for `nil`, the combined list
for a combined error, the error itself otherwise. -/
def errorsOf : Option GoError → List GoError
  | none => []
  | some (GoError.multi es) => es
  | some e => [e]

/-- A `context.Context`, reduced to its `Err` method: `none` while the context
is live, the cancellation or deadline error once it has fired. -/
structure Context (σ : Type) where
  Err : σ → Option GoError

/-- The declaration `type HookContext context.Context`. -/
abbrev HookContext (σ : Type) := Context σ

/-- The child of `context.WithCancel(ctx)` as seen during the call that made
it: its own `cancel` is deferred to the return of that call, so until then it
reports exactly what the parent reports. -/
def WithCancel {σ : Type} (ctx : Context σ) : Context σ :=
  { Err := fun w => ctx.Err w }

/-! ## Hooks -/

/-- A Go function value of type `func(HookContext) error`.  `name` is what
`internal.FuncNameAndLocation` reports for it. -/
structure HookFunc (σ : Type) where
  name : String
  run : HookContext σ → σ → Option GoError × σ

/-- The struct `Hook`: a pair of start and stop callbacks, both optional
(`none` is the `nil` function). -/
structure Hook (σ : Type) where
  OnStart : Option (HookFunc σ)
  OnStop : Option (HookFunc σ)

/-- The method `Hook.Start`. -/
def Hook.Start {σ : Type} (h : Hook σ) (ctx : HookContext σ) (w : σ) : Option GoError × σ :=
  match h.OnStart with
  | none => (none, w)
  | some f => f.run ctx w

/-- The method `Hook.Stop`. -/
def Hook.Stop {σ : Type} (h : Hook σ) (ctx : HookContext σ) (w : σ) : Option GoError × σ :=
  match h.OnStop with
  | none => (none, w)
  | some f => f.run ctx w

/-- A value of interface type `HookInterface`: either the struct `Hook`, or
any other object with `Start` and `Stop` methods, of which `typeName` is what
`internal.PrettyType` reports. -/
inductive HookInterface (σ : Type) where
  | hook (h : Hook σ)
  | object (typeName : String)
      (start : HookContext σ → σ → Option GoError × σ)
      (stop : HookContext σ → σ → Option GoError × σ)

/-- The interface method `Start`, dispatched on the dynamic type. -/
def HookInterface.Start {σ : Type} (h : HookInterface σ) (ctx : HookContext σ) (w : σ) :
    Option GoError × σ :=
  match h with
  | .hook h => h.Start ctx w
  | .object _ start _ => start ctx w

/-- The interface method `Stop`, dispatched on the dynamic type. -/
def HookInterface.Stop {σ : Type} (h : HookInterface σ) (ctx : HookContext σ) (w : σ) :
    Option GoError × σ :=
  match h with
  | .hook h => h.Stop ctx w
  | .object _ _ stop => stop ctx w

/-- The function `getHookFuncName`: the name under which a hook procedure is
logged, and whether the hook has the procedure at all. -/
def getHookFuncName {σ : Type} (hook : HookInterface σ) (start : Bool) : String × Bool :=
  match hook with
  | .hook hook =>
    if start then
      match hook.OnStart with
      | none => ("", false)
      | some f => (f.name, true)
    else
      match hook.OnStop with
      | none => ("", false)
      | some f => (f.name, true)
  | .object typeName _ _ =>
    if start then (typeName ++ ".Start", true)
    else (typeName ++ ".Stop", true)

/-! ## The lifecycle -/

/-- The struct `DefaultLifecycle` without its mutex. -/
structure DefaultLifecycle (σ : Type) where
  hooks : List (HookInterface σ)
  numStarted : Nat

/-- The zero value `DefaultLifecycle{}`: no hooks, nothing started. -/
def DefaultLifecycle.new (σ : Type) : DefaultLifecycle σ :=
  { hooks := [], numStarted := 0 }

/-- The method `Append`. -/
def DefaultLifecycle.Append {σ : Type} (lc : DefaultLifecycle σ) (hook : HookInterface σ) :
    DefaultLifecycle σ :=
  { lc with hooks := lc.hooks ++ [hook] }

/-- Which of the two procedures of a hook was invoked. -/
inductive ProcKind where
  | start
  | stop
  deriving DecidableEq, Repr

/-- One invocation of a hook procedure: the kind of procedure, the index of the
hook in the snapshot, and the `error` the procedure returned. -/
structure Call where
  kind : ProcKind
  index : Nat
  result : Option GoError

/-- What a `Start` call leaves behind: the returned `error`, the lifecycle,
the world, and the invocations made. -/
structure StartRun (σ : Type) where
  err : Option GoError
  lc : DefaultLifecycle σ
  world : σ
  calls : List Call

/-- The loop `for _, hook := range hooks` of `Start`.  `idx` is the position of
the head of the remaining snapshot, `numStarted` the counter `lc.numStarted`. -/
def startLoop {σ : Type} (ctx : HookContext σ) :
    List (HookInterface σ) → Nat → Nat → σ → List Call → Option GoError × Nat × σ × List Call
  | [], _, numStarted, w, calls => (none, numStarted, w, calls)
  | hook :: rest, idx, numStarted, w, calls =>
    match getHookFuncName hook true with
    | (_, false) =>
      -- Count as started as there might be a stop hook.
      startLoop ctx rest (idx + 1) (numStarted + 1) w calls
    | (_, true) =>
      match hook.Start ctx w with
      | (some err, w') => (some err, numStarted, w', calls ++ [⟨.start, idx, some err⟩])
      | (none, w') =>
        startLoop ctx rest (idx + 1) (numStarted + 1) w' (calls ++ [⟨.start, idx, none⟩])

/-- The method `Start`: snapshot of the hooks, child context, then the loop. -/
def DefaultLifecycle.Start {σ : Type} (lc : DefaultLifecycle σ) (ctx : Context σ) (w : σ) :
    StartRun σ :=
  let hooks := lc.hooks
  let ctx := WithCancel ctx
  match startLoop ctx hooks 0 lc.numStarted w [] with
  | (err, numStarted, w', calls) =>
    { err := err, lc := { lc with numStarted := numStarted }, world := w', calls := calls }

/-- How a `Stop` call ends: by a `return`, or by the run-time panic of an index
out of range at `hooks[lc.numStarted-1]`. -/
inductive Outcome where
  | returned (err : Option GoError)
  | panicked

/-- What a `Stop` call leaves behind. -/
structure StopRun (σ : Type) where
  outcome : Outcome
  lc : DefaultLifecycle σ
  world : σ
  calls : List Call

/-- The effect of one pass through the body of the loop of `Stop`: either the
call ends there, or control reaches the post statement `lc.numStarted--` with
a list of recorded errors, a world and a list of invocations. -/
inductive StopIter (σ : Type) where
  | exit (outcome : Outcome)
  | next (errs : List GoError) (w : σ) (calls : List Call)

/-- The body of the loop of `Stop`, entered with `lc.numStarted = numStarted > 0`. -/
def stopBody {σ : Type} (ctx : HookContext σ) (hooks : List (HookInterface σ))
    (numStarted : Nat) (errs : List GoError) (w : σ) (calls : List Call) : StopIter σ :=
  if (ctx.Err w).isSome then
    .exit (.returned (ctx.Err w))
  else
    match hooks[numStarted - 1]? with
    | none => .exit .panicked
    | some hook =>
      match getHookFuncName hook false with
      | (_, false) => .next errs w calls
      | (_, true) =>
        match hook.Stop ctx w with
        | (some err, w') => .next (errs ++ [err]) w' (calls ++ [⟨.stop, numStarted - 1, some err⟩])
        | (none, w') => .next errs w' (calls ++ [⟨.stop, numStarted - 1, none⟩])

/-- The loop `for ; lc.numStarted > 0; lc.numStarted--` of `Stop`, followed by
`return multierr.Combine(errs...)`. -/
def stopLoop {σ : Type} (ctx : HookContext σ) (hooks : List (HookInterface σ)) :
    Nat → List GoError → σ → List Call → Outcome × Nat × σ × List Call
  | 0, errs, w, calls => (.returned (Combine errs), 0, w, calls)
  | n + 1, errs, w, calls =>
    match stopBody ctx hooks (n + 1) errs w calls with
    | .exit o => (o, n + 1, w, calls)
    | .next errs' w' calls' => stopLoop ctx hooks n errs' w' calls'

/-- The method `Stop`: snapshot of the hooks, child context, then the loop
with `errs` empty. -/
def DefaultLifecycle.Stop {σ : Type} (lc : DefaultLifecycle σ) (ctx : Context σ) (w : σ) :
    StopRun σ :=
  let hooks := lc.hooks
  let ctx := WithCancel ctx
  match stopLoop ctx hooks lc.numStarted [] w [] with
  | (o, numStarted, w', calls) =>
    { outcome := o, lc := { lc with numStarted := numStarted }, world := w', calls := calls }

/-- The first loop of `PrintHooks`, `for _, hook := range lc.hooks`: the pieces
of text it prints, one `fmt.Printf("  • %s\n", fnName)` per hook that has a
start procedure. -/
def printStartHooks {σ : Type} : List (HookInterface σ) → List String
  | [] => []
  | hook :: rest =>
    match getHookFuncName hook true with
    | (_, false) => printStartHooks rest
    | (fnName, true) => ("  • " ++ fnName ++ "\n") :: printStartHooks rest

/-- The second loop of `PrintHooks`, `for i := len(lc.hooks) - 1; i >= 0; i--`,
entered with `i + 1 = n`: the pieces of text it prints. -/
def printStopHooks {σ : Type} (hooks : List (HookInterface σ)) :
    (n : Nat) → n ≤ hooks.length → List String
  | 0, _ => []
  | i + 1, h =>
    match getHookFuncName (hooks.get ⟨i, Nat.lt_of_succ_le h⟩) false with
    | (_, false) => printStopHooks hooks i (Nat.le_of_succ_le h)
    | (fnName, true) =>
      ("  • " ++ fnName ++ "\n") :: printStopHooks hooks i (Nat.le_of_succ_le h)

/-- The method `PrintHooks`: the lifecycle as the method leaves it, and the
pieces of text printed, in order. -/
def DefaultLifecycle.PrintHooks {σ : Type} (lc : DefaultLifecycle σ) :
    DefaultLifecycle σ × List String :=
  (lc, ["Start hooks:\n\n"] ++ printStartHooks lc.hooks ++ ["\nStop hooks:\n\n"] ++
    printStopHooks lc.hooks lc.hooks.length (Nat.le_refl _))

/-- The pair returned by `context.WithCancel(parent)`, with a state of its own
in the world: the child context, and the effect on the world of calling the
cancel function.  Once cancelled the child reports an error; cancelling the
child leaves what the parent reports untouched. -/
structure CancelCtx (σ : Type) (parent : Context σ) where
  child : Context σ
  cancel : σ → σ
  cancel_fires : ∀ w, (child.Err (cancel w)).isSome = true
  cancel_keeps_parent : ∀ w, parent.Err (cancel w) = parent.Err w

/-- The method `Start` with `ctx, cancel := context.WithCancel(ctx)` and
`defer cancel()` spelled out: the loop runs with the child context, and the
deferred cancel acts on the world when the method returns, by either
`return`. -/
def DefaultLifecycle.StartScoped {σ : Type} (lc : DefaultLifecycle σ) (ctx : Context σ)
    (scope : CancelCtx σ ctx) (w : σ) : StartRun σ :=
  let hooks := lc.hooks
  match startLoop scope.child hooks 0 lc.numStarted w [] with
  | (err, numStarted, w', calls) =>
    { err := err, lc := { lc with numStarted := numStarted }, world := scope.cancel w',
      calls := calls }

/-- The method `Stop` with `ctx, cancel := context.WithCancel(ctx)` and
`defer cancel()` spelled out: the deferred cancel acts on the world when the
method returns, by either `return`, or panics. -/
def DefaultLifecycle.StopScoped {σ : Type} (lc : DefaultLifecycle σ) (ctx : Context σ)
    (scope : CancelCtx σ ctx) (w : σ) : StopRun σ :=
  let hooks := lc.hooks
  match stopLoop scope.child hooks lc.numStarted [] w [] with
  | (o, numStarted, w', calls) =>
    { outcome := o, lc := { lc with numStarted := numStarted }, world := scope.cancel w',
      calls := calls }

/-- A lifecycle whose registry can be reached by the hook procedures, which
may call `Append` on it: `registry w` is the content of `lc.hooks` in world
`w`.  The field `numStarted` is private to the methods. -/
structure SharedLifecycle (σ : Type) where
  registry : σ → List (HookInterface σ)
  numStarted : Nat

/-- The shared lifecycle as it stands in world `w`. -/
def SharedLifecycle.view {σ : Type} (sl : SharedLifecycle σ) (w : σ) : DefaultLifecycle σ :=
  { hooks := sl.registry w, numStarted := sl.numStarted }

/-- The method `Start` on a shared lifecycle: the snapshot is the registry as
found at entry; the loop then works on the snapshot and on `numStarted`
alone, while the registry goes on living in the world. -/
def SharedLifecycle.Start {σ : Type} (sl : SharedLifecycle σ) (ctx : Context σ) (w : σ) :
    StartRun σ :=
  (sl.view w).Start ctx w

/-- The method `Stop` on a shared lifecycle: the snapshot is the registry as
found at entry. -/
def SharedLifecycle.Stop {σ : Type} (sl : SharedLifecycle σ) (ctx : Context σ) (w : σ) :
    StopRun σ :=
  (sl.view w).Stop ctx w

/-! ## The mutex

The methods seen as the sequence of what they do to the mutex, to the two
fields and to the hooks, in the order of the source. -/

/-- One step of a method that matters for the locking discipline: locking or
unlocking `lc.mu`, reading or writing `lc.hooks`, reading or writing
`lc.numStarted`, invoking a hook procedure. -/
inductive Access where
  | lock
  | unlock
  | readHooks
  | writeHooks
  | readNumStarted
  | writeNumStarted
  | invoke (c : Call)

/-- The steps of `Append`: `lc.mu.Lock()`, `lc.hooks = append(lc.hooks, hook)`,
and the deferred `lc.mu.Unlock()`. -/
def DefaultLifecycle.AppendAccesses {σ : Type} (_lc : DefaultLifecycle σ)
    (_hook : HookInterface σ) : List Access :=
  [.lock, .readHooks, .writeHooks, .unlock]

/-- The steps of the loop of `Start`; `lc.numStarted++` reads and writes the
counter. -/
def startLoopAccesses {σ : Type} (ctx : HookContext σ) :
    List (HookInterface σ) → Nat → σ → List Access
  | [], _, _ => []
  | hook :: rest, idx, w =>
    match getHookFuncName hook true with
    | (_, false) =>
      [.readNumStarted, .writeNumStarted] ++ startLoopAccesses ctx rest (idx + 1) w
    | (_, true) =>
      match hook.Start ctx w with
      | (some err, _) => [.invoke ⟨.start, idx, some err⟩]
      | (none, w') =>
        [.invoke ⟨.start, idx, none⟩, .readNumStarted, .writeNumStarted] ++
          startLoopAccesses ctx rest (idx + 1) w'

/-- The steps of `Start`: `lc.mu.Lock()`, `len(lc.hooks)`, `copy(hooks, lc.hooks)`,
`lc.mu.Unlock()`, then the loop. -/
def DefaultLifecycle.StartAccesses {σ : Type} (lc : DefaultLifecycle σ) (ctx : Context σ)
    (w : σ) : List Access :=
  [.lock, .readHooks, .readHooks, .unlock] ++ startLoopAccesses (WithCancel ctx) lc.hooks 0 w

/-- The steps of the loop of `Stop`: the condition `lc.numStarted > 0` reads the
counter, so does the index `lc.numStarted-1`, and the post statement
`lc.numStarted--` reads and writes it. -/
def stopLoopAccesses {σ : Type} (ctx : HookContext σ) (hooks : List (HookInterface σ)) :
    Nat → σ → List Access
  | 0, _ => [.readNumStarted]
  | n + 1, w =>
    .readNumStarted ::
      (if (ctx.Err w).isSome then []
       else
        .readNumStarted ::
          (match hooks[n]? with
           | none => []
           | some hook =>
             match getHookFuncName hook false with
             | (_, false) =>
               [.readNumStarted, .writeNumStarted] ++ stopLoopAccesses ctx hooks n w
             | (_, true) =>
               match hook.Stop ctx w with
               | (r, w') =>
                 [.invoke ⟨.stop, n, r⟩, .readNumStarted, .writeNumStarted] ++
                   stopLoopAccesses ctx hooks n w'))

/-- The steps of `Stop`: `lc.mu.Lock()`, `len(lc.hooks)`, `copy(hooks, lc.hooks)`,
`lc.mu.Unlock()`, then the loop. -/
def DefaultLifecycle.StopAccesses {σ : Type} (lc : DefaultLifecycle σ) (ctx : Context σ)
    (w : σ) : List Access :=
  [.lock, .readHooks, .readHooks, .unlock] ++
    stopLoopAccesses (WithCancel ctx) lc.hooks lc.numStarted w

/-- The steps of `PrintHooks`: `lc.mu.Lock()`, `range lc.hooks`, `len(lc.hooks)`,
one `lc.hooks[i]` per hook, and the deferred `lc.mu.Unlock()`. -/
def DefaultLifecycle.PrintHooksAccesses {σ : Type} (lc : DefaultLifecycle σ) : List Access :=
  [.lock, .readHooks, .readHooks] ++ List.replicate lc.hooks.length .readHooks ++ [.unlock]

/-- Whether the mutex is held after a step. -/
def heldAfter (held : Bool) : Access → Bool
  | .lock => true
  | .unlock => false
  | _ => held

/-- Whether every step of the kind `p` happens while the mutex is held
(`want = true`) or while it is not held (`want = false`), the mutex being
`held` or not at the beginning. -/
def obeys (p : Access → Bool) (want : Bool) : Bool → List Access → Bool
  | _, [] => true
  | held, a :: rest => (!p a || held == want) && obeys p want (heldAfter held a) rest

/-- The reads and writes of `lc.hooks`. -/
def isRegistryAccess : Access → Bool
  | .readHooks => true
  | .writeHooks => true
  | _ => false

/-- The reads and writes of `lc.numStarted`. -/
def isCounterAccess : Access → Bool
  | .readNumStarted => true
  | .writeNumStarted => true
  | _ => false

/-- The invocations of hook procedures. -/
def isInvoke : Access → Bool
  | .invoke _ => true
  | _ => false

/-- The hook procedures invoked in a sequence of steps. -/
def invokesOf (t : List Access) : List Call :=
  t.filterMap (fun a => match a with
    | .invoke c => some c
    | _ => none)

/-- The variables of the loop of `Stop` at the head of the loop. -/
structure StopState (σ : Type) where
  numStarted : Nat
  errs : List GoError
  world : σ
  calls : List Call

/-- The relation "the loop of `Stop`, being at its head in state `s`, later is at
its head in state `t`": zero or more full passes through the body, each
followed by `lc.numStarted--`. -/
inductive StopReaches {σ : Type} (ctx : HookContext σ) (hooks : List (HookInterface σ)) :
    StopState σ → StopState σ → Prop where
  | here (s : StopState σ) : StopReaches ctx hooks s s
  | pass (n : Nat) (errs : List GoError) (w : σ) (calls : List Call)
      (errs' : List GoError) (w' : σ) (calls' : List Call) (t : StopState σ) :
      stopBody ctx hooks (n + 1) errs w calls = StopIter.next errs' w' calls' →
      StopReaches ctx hooks ⟨n, errs', w', calls'⟩ t →
      StopReaches ctx hooks ⟨n + 1, errs, w, calls⟩ t

/-- The number of times the body of the loop of `Stop` is entered. -/
def stopIterations {σ : Type} (ctx : HookContext σ) (hooks : List (HookInterface σ)) :
    Nat → List GoError → σ → List Call → Nat
  | 0, _, _, _ => 0
  | n + 1, errs, w, calls =>
    match stopBody ctx hooks (n + 1) errs w calls with
    | .exit _ => 1
    | .next errs' w' calls' => 1 + stopIterations ctx hooks n errs' w' calls'

/-! ## Vocabulary of the statements -/

/-- The world in which the next start procedure runs after the start
procedures of `hooks` have run one after the other from world `w`. -/
def worldAfterStarts {σ : Type} (ctx : HookContext σ) (hooks : List (HookInterface σ)) (w : σ) : σ :=
  hooks.foldl (fun w h => (h.Start ctx w).2) w

/-- Whether the hook at index `i` of `hooks` has a stop procedure. -/
def hasStopAt {σ : Type} (hooks : List (HookInterface σ)) (i : Nat) : Bool :=
  match hooks[i]? with
  | none => false
  | some h => (getHookFuncName h false).2

/-- The indices `hi - 1, hi - 2, ..., lo` in that order, restricted to the
hooks that have a stop procedure. -/
def stopWindow {σ : Type} (hooks : List (HookInterface σ)) (lo hi : Nat) : List Nat :=
  (List.range hi).reverse.filter (fun i => decide (lo ≤ i) && hasStopAt hooks i)

/-- The indices of the hooks that have a start procedure, in registration
order, the first hook of `hooks` being numbered `idx`. -/
def startOrderFrom {σ : Type} (idx : Nat) (hooks : List (HookInterface σ)) : List Nat :=
  ((hooks.enumFrom idx).filter (fun p => (getHookFuncName p.2 true).2)).map Prod.fst

/-- The indices of the hooks that have a start procedure, in registration
order. -/
def startOrder {σ : Type} (hooks : List (HookInterface σ)) : List Nat :=
  startOrderFrom 0 hooks

/-- The name under which the start (`start = true`) or stop procedure of the
hook at index `i` is logged and listed. -/
def procName {σ : Type} (hooks : List (HookInterface σ)) (start : Bool) (i : Nat) : String :=
  match hooks[i]? with
  | none => ""
  | some h => (getHookFuncName h start).1

/-- The piece of text with which `PrintHooks` lists a procedure name. -/
def listed (name : String) : String :=
  "  • " ++ name ++ "\n"

/-- Two hooks have the same procedures, under the same names, and these do the
same when they are handed the context `c`; handed another context they may
differ. -/
def SameAt {σ : Type} (c : HookContext σ) (h h' : HookInterface σ) : Prop :=
  (∀ b, getHookFuncName h b = getHookFuncName h' b) ∧
  (∀ w, h.Start c w = h'.Start c w) ∧
  (∀ w, h.Stop c w = h'.Stop c w)

/-- The start procedure of a hook as its data give it: the `OnStart` callback
of a `Hook` struct, none when it is nil, and the `Start` method of any other
object. -/
def startProcOf {σ : Type} :
    HookInterface σ → Option (HookContext σ → σ → Option GoError × σ)
  | .hook h => h.OnStart.map (fun f => f.run)
  | .object _ start _ => some start

/-- The stop procedure of a hook as its data give it: the `OnStop` callback of
a `Hook` struct, none when it is nil, and the `Stop` method of any other
object. -/
def stopProcOf {σ : Type} :
    HookInterface σ → Option (HookContext σ → σ → Option GoError × σ)
  | .hook h => h.OnStop.map (fun f => f.run)
  | .object _ _ stop => some stop

/-- The run of start procedures in the words of the spec: go through the hooks
in registration order; a hook without a start procedure is passed over; the
start procedure of any other hook is run in the world left by its
predecessors; the first procedure that returns an error ends the run with
that error.  The result is the list of procedures run with what each
returned, the error, and the world left behind. -/
def specStartRun {σ : Type} (ctx : HookContext σ) :
    List (HookInterface σ) → Nat → σ → List Call × Option GoError × σ
  | [], _, w => ([], none, w)
  | hook :: rest, idx, w =>
    match startProcOf hook with
    | none => specStartRun ctx rest (idx + 1) w
    | some f =>
      match f ctx w with
      | (some err, w') => ([⟨.start, idx, some err⟩], some err, w')
      | (none, w') =>
        (⟨.start, idx, none⟩ :: (specStartRun ctx rest (idx + 1) w').1,
          (specStartRun ctx rest (idx + 1) w').2.1,
          (specStartRun ctx rest (idx + 1) w').2.2)

/-- The run of stop procedures in the words of the spec, for a context that
never fires: go through the hooks at the indices `n - 1, ..., 0`; a hook
without a stop procedure is passed over; the stop procedure of any other hook
is run in the world left by the ones before, whether or not those returned an
error.  The result is the list of procedures run with what each returned, and
the world left behind. -/
def specStopRun {σ : Type} (ctx : HookContext σ) (hooks : List (HookInterface σ)) :
    Nat → σ → List Call × σ
  | 0, w => ([], w)
  | n + 1, w =>
    match hooks[n]? with
    | none => ([], w)
    | some hook =>
      match stopProcOf hook with
      | none => specStopRun ctx hooks n w
      | some g =>
        (⟨.stop, n, (g ctx w).1⟩ :: (specStopRun ctx hooks n (g ctx w).2).1,
          (specStopRun ctx hooks n (g ctx w).2).2)

/-- A context that never fires, whatever the world. -/
def NeverFires {σ : Type} (ctx : Context σ) : Prop :=
  ∀ w, ctx.Err w = none

/-! ## Sequences of calls on one lifecycle -/

/-- A call made on the lifecycle by its owner, or a change of the world that
happens between two calls (time passing, a cancellation). -/
inductive Op (σ : Type) where
  | append (hook : HookInterface σ)
  | start (ctx : Context σ)
  | stop (ctx : Context σ)
  | elapse (f : σ → σ)

/-- The lifecycle and the world after one operation.  A `Stop` that panics
leaves both as they were at the panic. -/
def Op.apply {σ : Type} : Op σ → DefaultLifecycle σ × σ → DefaultLifecycle σ × σ
  | .append hook, (lc, w) => (lc.Append hook, w)
  | .start ctx, (lc, w) => ((lc.Start ctx w).lc, (lc.Start ctx w).world)
  | .stop ctx, (lc, w) => ((lc.Stop ctx w).lc, (lc.Stop ctx w).world)
  | .elapse f, (lc, w) => (lc, f w)

/-- The lifecycle and the world after a finite sequence of operations. -/
def runOps {σ : Type} (ops : List (Op σ)) (s : DefaultLifecycle σ × σ) : DefaultLifecycle σ × σ :=
  ops.foldl (fun s op => op.apply s) s

/-- Every `Start` of the sequence is issued while `numStarted` is zero. -/
def StartsOnlyAtZero {σ : Type} : List (Op σ) → DefaultLifecycle σ × σ → Prop
  | [], _ => True
  | .start ctx :: ops, s =>
    s.1.numStarted = 0 ∧ StartsOnlyAtZero ops ((Op.start ctx).apply s)
  | op :: ops, s => StartsOnlyAtZero ops (op.apply s)

/-! ## Sample hooks, contexts and lifecycles

The world of the samples is a clock that every hook procedure advances by
one. -/

/-- The error `E` of the first scenario of the spec. -/
def errE : GoError := GoError.msg "E"

/-- The error `F` of the second scenario of the spec. -/
def errF : GoError := GoError.msg "F"

/-- The value `context.Canceled`. -/
def errCanceled : GoError := GoError.msg "context canceled"

/-- The value `context.DeadlineExceeded`. -/
def errDeadline : GoError := GoError.msg "context deadline exceeded"

/-- The context `context.Background()`: it never fires. -/
def background : Context Nat := { Err := fun _ => none }

/-- A context that was cancelled before the call. -/
def expired : Context Nat := { Err := fun _ => some errCanceled }

/-- A context whose deadline passes when the clock reaches `t`. -/
def deadline (t : Nat) : Context Nat :=
  { Err := fun w => if t ≤ w then some errDeadline else none }

/-- A procedure that succeeds. -/
def succeeds (name : String) : HookFunc Nat :=
  { name := name, run := fun _ w => (none, w + 1) }

/-- A procedure that fails with error `e`. -/
def fails (name : String) (e : GoError) : HookFunc Nat :=
  { name := name, run := fun _ w => (some e, w + 1) }

/-- Hook `A`: both procedures succeed. -/
def hookA : HookInterface Nat :=
  .hook { OnStart := some (succeeds "A.start"), OnStop := some (succeeds "A.stop") }

/-- Hook `B`: both procedures succeed. -/
def hookB : HookInterface Nat :=
  .hook { OnStart := some (succeeds "B.start"), OnStop := some (succeeds "B.stop") }

/-- Hook `C` of the first scenario: its start procedure returns `E`. -/
def hookC : HookInterface Nat :=
  .hook { OnStart := some (fails "C.start" errE), OnStop := some (succeeds "C.stop") }

/-- Hook `B` of the second scenario: its stop procedure returns `F`. -/
def hookBF : HookInterface Nat :=
  .hook { OnStart := some (succeeds "B.start"), OnStop := some (fails "B.stop" errF) }

/-- Hooks `A`, `B`, `C` appended in that order, none started. -/
def lcABC : DefaultLifecycle Nat := { hooks := [hookA, hookB, hookC], numStarted := 0 }

/-- Hooks `A`, `B` appended in that order, none started. -/
def lcAB : DefaultLifecycle Nat := { hooks := [hookA, hookB], numStarted := 0 }

/-- Hooks `A` and the `B` whose stop fails, both started. -/
def lcABF : DefaultLifecycle Nat := { hooks := [hookA, hookBF], numStarted := 2 }

/-- Hook `A` alone, started. -/
def lcA1 : DefaultLifecycle Nat := { hooks := [hookA], numStarted := 1 }

/-- A hook with a start procedure only. -/
def hookStartOnly : HookInterface Nat :=
  .hook { OnStart := some (succeeds "S.start"), OnStop := none }

/-- A hook with a stop procedure only. -/
def hookStopOnly : HookInterface Nat :=
  .hook { OnStart := none, OnStop := some (succeeds "T.stop") }

/-- A hook with neither procedure. -/
def hookInert : HookInterface Nat :=
  .hook { OnStart := none, OnStop := none }

/-- A start-only hook, a stop-only hook and an inert hook, none started. -/
def lcMixed : DefaultLifecycle Nat :=
  { hooks := [hookStartOnly, hookStopOnly, hookInert], numStarted := 0 }

/-- A context over a clock and the cancellation flag of a child context; its
deadline passes when the clock reaches 5. -/
def parentCtx : Context (Nat × Bool) :=
  { Err := fun v => if 5 ≤ v.1 then some errDeadline else none }

/-- The result of `context.WithCancel(parentCtx)`: the child is done when the
parent is done or when the flag is set, and the cancel function sets the
flag. -/
def childScope : CancelCtx (Nat × Bool) parentCtx where
  child := { Err := fun v => if 5 ≤ v.1 then some errDeadline
                             else if v.2 then some errCanceled else none }
  cancel := fun v => (v.1, true)
  cancel_fires := by
    intro w
    by_cases h : 5 ≤ w.1 <;> simp [h]
  cancel_keeps_parent := fun _ => rfl

/-- A hook over the clock and the flag whose procedures succeed. -/
def hookP : HookInterface (Nat × Bool) :=
  .hook { OnStart := some { name := "P.start", run := fun _ v => (none, (v.1 + 1, v.2)) },
          OnStop := some { name := "P.stop", run := fun _ v => (none, (v.1 + 1, v.2)) } }

/-- A hook that does what `hookP` does when the context it is handed turns out
done once the flag is set, as the child context does, and fails otherwise, as
it would with the parent context. -/
def hookQ : HookInterface (Nat × Bool) :=
  .hook { OnStart := some { name := "P.start",
                            run := fun c v => if (c.Err (0, true)).isSome then (none, (v.1 + 1, v.2))
                                              else (some errE, v) },
          OnStop := some { name := "P.stop",
                           run := fun c v => if (c.Err (0, true)).isSome then (none, (v.1 + 1, v.2))
                                             else (some errE, v) } }

/-- The hook `hookP`, started. -/
def lcP : DefaultLifecycle (Nat × Bool) := { hooks := [hookP], numStarted := 1 }

/-- A hook that is appended late, by a procedure of another hook. -/
def hookLate : HookInterface Nat :=
  .hook { OnStart := some { name := "late.start", run := fun _ w => (none, w) },
          OnStop := none }

/-- A hook whose procedures each call `Append(hookLate)` on the lifecycle that
runs them; the world counts these calls. -/
def hookAppender : HookInterface Nat :=
  .hook { OnStart := some { name := "appender.start", run := fun _ w => (none, w + 1) },
          OnStop := some { name := "appender.stop", run := fun _ w => (none, w + 1) } }

/-- A shared lifecycle holding `hookAppender` followed by the hooks appended
so far. -/
def slAppender : SharedLifecycle Nat :=
  { registry := fun w => hookAppender :: List.replicate w hookLate, numStarted := 0 }

/-- A `Hook` struct with a start callback only. -/
def startOnly : Hook Nat :=
  { OnStart := some (succeeds "S.start"), OnStop := none }

/-- The pointer `&startOnly` as a hook: not the struct `Hook` but another
object, whose methods are those of the struct it points to. -/
def hookPtrStartOnly : HookInterface Nat :=
  .object "*hive.Hook" startOnly.Start startOnly.Stop

/-- The hook `&startOnly` alone, not started. -/
def lcPtr : DefaultLifecycle Nat := { hooks := [hookPtrStartOnly], numStarted := 0 }

/-! ## Auxiliary facts about hooks -/

section Aux

variable {σ : Type}

theorem start_eq_of_no_start_proc (h : HookInterface σ) (ctx : HookContext σ) (w : σ)
    (hn : (getHookFuncName h true).2 = false) : h.Start ctx w = (none, w) := by
  cases h with
  | hook hk =>
    cases hOn : hk.OnStart with
    | none => simp [HookInterface.Start, Hook.Start, hOn]
    | some f => simp [getHookFuncName, hOn] at hn
  | object t s p => simp [getHookFuncName] at hn

theorem getHookFuncName_snd_cases (h : HookInterface σ) (b : Bool) :
    getHookFuncName h b = ((getHookFuncName h b).1, (getHookFuncName h b).2) := rfl

theorem worldAfterStarts_cons (ctx : HookContext σ) (h : HookInterface σ)
    (t : List (HookInterface σ)) (w : σ) :
    worldAfterStarts ctx (h :: t) w = worldAfterStarts ctx t (h.Start ctx w).2 := rfl

/-- The loop of `Start` when the hook at index `i` is the first whose start
procedure returns an error. -/
theorem startLoop_first_failure (ctx : HookContext σ) :
    ∀ (hooks : List (HookInterface σ)) (i : Nat) (hook : HookInterface σ) (E : GoError)
      (idx n : Nat) (w : σ) (calls : List Call),
      hooks[i]? = some hook →
      (∀ (j : Nat) (h : HookInterface σ), j < i → hooks[j]? = some h →
        (h.Start ctx (worldAfterStarts ctx (hooks.take j) w)).1 = none) →
      (hook.Start ctx (worldAfterStarts ctx (hooks.take i) w)).1 = some E →
      (startLoop ctx hooks idx n w calls).1 = some E ∧
        (startLoop ctx hooks idx n w calls).2.1 = n + i := by
  intro hooks
  induction hooks with
  | nil => intro i hook E idx n w calls hi; simp at hi
  | cons hd tl ih =>
    intro i hook E idx n w calls hi hok hfail
    cases i with
    | zero =>
      simp at hi
      subst hi
      simp [worldAfterStarts] at hfail
      unfold startLoop
      cases hb : (getHookFuncName hd true).2 with
      | false =>
        rw [start_eq_of_no_start_proc hd ctx w hb] at hfail
        simp at hfail
      | true =>
        rw [getHookFuncName_snd_cases, hb]
        simp only
        rcases hs : hd.Start ctx w with ⟨r, w'⟩
        rw [hs] at hfail
        simp at hfail
        subst hfail
        simp
    | succ i =>
      simp at hi
      have h0 : (hd.Start ctx w).1 = none := by
        have := hok 0 hd (Nat.succ_pos i) (by simp)
        simpa [worldAfterStarts] using this
      have hok' : ∀ (j : Nat) (h : HookInterface σ), j < i → tl[j]? = some h →
          (h.Start ctx (worldAfterStarts ctx (tl.take j) (hd.Start ctx w).2)).1 = none := by
        intro j h hj hjh
        have := hok (j + 1) h (Nat.succ_lt_succ hj) (by simpa using hjh)
        simpa [worldAfterStarts_cons] using this
      have hfail' : (hook.Start ctx (worldAfterStarts ctx (tl.take i) (hd.Start ctx w).2)).1
          = some E := by
        simpa [worldAfterStarts_cons] using hfail
      unfold startLoop
      cases hb : (getHookFuncName hd true).2 with
      | false =>
        rw [getHookFuncName_snd_cases, hb]
        simp only
        rw [start_eq_of_no_start_proc hd ctx w hb] at hok' hfail'
        have := ih i hook E (idx + 1) (n + 1) w calls hi hok' hfail'
        refine ⟨this.1, ?_⟩
        rw [this.2]; omega
      | true =>
        rw [getHookFuncName_snd_cases, hb]
        simp only
        rcases hs : hd.Start ctx w with ⟨r, w'⟩
        rw [hs] at h0 hok' hfail'
        simp at h0
        subst h0
        simp only
        have := ih i hook E (idx + 1) (n + 1) w' (calls ++ [⟨.start, idx, none⟩]) hi hok' hfail'
        refine ⟨this.1, ?_⟩
        rw [this.2]; omega

/-- The loop of `Start` when every start procedure returns no error. -/
theorem startLoop_all_succeed (ctx : HookContext σ) :
    ∀ (hooks : List (HookInterface σ)) (idx n : Nat) (w : σ) (calls : List Call),
      (∀ (j : Nat) (h : HookInterface σ), hooks[j]? = some h →
        (h.Start ctx (worldAfterStarts ctx (hooks.take j) w)).1 = none) →
      (startLoop ctx hooks idx n w calls).1 = none ∧
        (startLoop ctx hooks idx n w calls).2.1 = n + hooks.length := by
  intro hooks
  induction hooks with
  | nil => intro idx n w calls _; simp [startLoop]
  | cons hd tl ih =>
    intro idx n w calls hok
    have h0 : (hd.Start ctx w).1 = none := by
      have := hok 0 hd (by simp)
      simpa [worldAfterStarts] using this
    have hok' : ∀ (j : Nat) (h : HookInterface σ), tl[j]? = some h →
        (h.Start ctx (worldAfterStarts ctx (tl.take j) (hd.Start ctx w).2)).1 = none := by
      intro j h hjh
      have := hok (j + 1) h (by simpa using hjh)
      simpa [worldAfterStarts_cons] using this
    unfold startLoop
    cases hb : (getHookFuncName hd true).2 with
    | false =>
      rw [getHookFuncName_snd_cases, hb]
      simp only
      rw [start_eq_of_no_start_proc hd ctx w hb] at hok'
      have := ih (idx + 1) (n + 1) w calls hok'
      refine ⟨this.1, ?_⟩
      rw [this.2]; simp; omega
    | true =>
      rw [getHookFuncName_snd_cases, hb]
      simp only
      rcases hs : hd.Start ctx w with ⟨r, w'⟩
      rw [hs] at h0 hok'
      simp at h0
      subst h0
      simp only
      have := ih (idx + 1) (n + 1) w' (calls ++ [⟨.start, idx, none⟩]) hok'
      refine ⟨this.1, ?_⟩
      rw [this.2]; simp; omega

/-- The invocations made by the loop of `Start`. -/
theorem startLoop_calls (ctx : HookContext σ) :
    ∀ (hooks : List (HookInterface σ)) (idx n : Nat) (w : σ) (calls : List Call),
      ∃ new : List Call,
        (startLoop ctx hooks idx n w calls).2.2.2 = calls ++ new ∧
        (∀ c ∈ new, c.kind = ProcKind.start) ∧
        new.map (fun c => c.index) = (startOrderFrom idx hooks).take new.length ∧
        (∀ c ∈ new.dropLast, c.result = none) ∧
        ((startLoop ctx hooks idx n w calls).1 = none →
          new.map (fun c => c.index) = startOrderFrom idx hooks ∧
            ∀ c ∈ new, c.result = none) ∧
        (∀ e, (startLoop ctx hooks idx n w calls).1 = some e →
          ∃ i, new.getLast? = some ⟨ProcKind.start, i, some e⟩) := by
  intro hooks
  induction hooks with
  | nil =>
    intro idx n w calls
    exact ⟨[], by simp [startLoop, startOrderFrom]⟩
  | cons hd tl ih =>
    intro idx n w calls
    unfold startLoop
    cases hb : (getHookFuncName hd true).2 with
    | false =>
      rw [getHookFuncName_snd_cases, hb]
      simp only
      obtain ⟨new, h1, h2, h3, h4, h5, h6⟩ := ih (idx + 1) (n + 1) w calls
      refine ⟨new, h1, h2, ?_, h4, ?_, h6⟩
      · simpa [startOrderFrom, List.enumFrom_cons, hb] using h3
      · intro hn
        have := h5 hn
        refine ⟨?_, this.2⟩
        simpa [startOrderFrom, List.enumFrom_cons, hb] using this.1
    | true =>
      rw [getHookFuncName_snd_cases, hb]
      simp only
      rcases hs : hd.Start ctx w with ⟨r, w'⟩
      cases r with
      | some err =>
        refine ⟨[⟨ProcKind.start, idx, some err⟩], ?_⟩
        simp [startOrderFrom, List.enumFrom_cons, hb]
      | none =>
        simp only
        obtain ⟨new, h1, h2, h3, h4, h5, h6⟩ :=
          ih (idx + 1) (n + 1) w' (calls ++ [⟨ProcKind.start, idx, none⟩])
        refine ⟨⟨ProcKind.start, idx, none⟩ :: new, ?_, ?_, ?_, ?_, ?_, ?_⟩
        · simpa using h1
        · intro c hc
          rcases List.mem_cons.1 hc with rfl | hc
          · rfl
          · exact h2 c hc
        · simpa [startOrderFrom, List.enumFrom_cons, hb] using h3
        · intro c hc
          cases new with
          | nil => simp at hc
          | cons c1 new1 =>
            rw [List.dropLast_cons₂] at hc
            rcases List.mem_cons.1 hc with rfl | hc
            · rfl
            · exact h4 c hc
        · intro hn
          have := h5 hn
          refine ⟨?_, ?_⟩
          · simpa [startOrderFrom, List.enumFrom_cons, hb] using this.1
          · intro c hc
            rcases List.mem_cons.1 hc with rfl | hc
            · rfl
            · exact this.2 c hc
        · intro e he
          obtain ⟨i, hi⟩ := h6 e he
          refine ⟨i, ?_⟩
          cases new with
          | nil => simp at hi
          | cons c1 new1 => simpa [List.getLast?_cons_cons] using hi

theorem startOrder_nodup (hooks : List (HookInterface σ)) : (startOrder hooks).Nodup := by
  have hsub : List.Sublist (startOrder hooks) (List.range hooks.length) := by
    have h1 : List.Sublist
        ((hooks.enum.filter (fun p => (getHookFuncName p.2 true).2)).map Prod.fst)
        (hooks.enum.map Prod.fst) := (List.filter_sublist _).map _
    rw [List.enum_map_fst] at h1
    exact h1
  exact (List.nodup_range _).sublist hsub

theorem stopWindow_succ (hooks : List (HookInterface σ)) (m n : Nat) :
    stopWindow hooks m (n + 1) =
      if (decide (m ≤ n) && hasStopAt hooks n) = true then n :: stopWindow hooks m n
      else stopWindow hooks m n := by
  simp [stopWindow, List.range_succ, List.filter_cons]

theorem stopWindow_empty (hooks : List (HookInterface σ)) (m n : Nat) (h : n ≤ m) :
    stopWindow hooks m n = [] := by
  simp only [stopWindow, List.filter_eq_nil_iff, List.mem_reverse, List.mem_range]
  intro i hi
  have : ¬ m ≤ i := by omega
  simp [this]

/-- The loop of `Stop`, entered with a counter within the snapshot: where it
stops, which procedures it invokes, and what it returns. -/
theorem stopLoop_spec (ctx : HookContext σ) (hooks : List (HookInterface σ)) :
    ∀ (n : Nat) (errs : List GoError) (w : σ) (calls : List Call), n ≤ hooks.length →
      ∃ (m : Nat) (new : List Call),
        m ≤ n ∧
        (stopLoop ctx hooks n errs w calls).2.1 = m ∧
        (stopLoop ctx hooks n errs w calls).2.2.2 = calls ++ new ∧
        (∀ c ∈ new, c.kind = ProcKind.stop) ∧
        new.map (fun c => c.index) = stopWindow hooks m n ∧
        (m = 0 → (stopLoop ctx hooks n errs w calls).1 =
          Outcome.returned (Combine (errs ++ new.filterMap (fun c => c.result)))) ∧
        (0 < m → ∃ e, ctx.Err (stopLoop ctx hooks n errs w calls).2.2.1 = some e ∧
          (stopLoop ctx hooks n errs w calls).1 = Outcome.returned (some e)) := by
  intro n
  induction n with
  | zero =>
    intro errs w calls _
    exact ⟨0, [], by simp [stopLoop, stopWindow]⟩
  | succ n ih =>
    intro errs w calls hn
    unfold stopLoop stopBody
    cases hc : ctx.Err w with
    | some e =>
      refine ⟨n + 1, [], ?_⟩
      simp [hc, stopWindow_empty]
    | none =>
      have hlt : n < hooks.length := hn
      simp only [Option.isSome_none, Bool.false_eq_true, if_false, Nat.add_sub_cancel,
        List.getElem?_eq_getElem hlt]
      have hAt : hasStopAt hooks n = (getHookFuncName hooks[n] false).2 := by
        simp [hasStopAt, List.getElem?_eq_getElem hlt]
      cases hb : (getHookFuncName hooks[n] false).2 with
      | false =>
        rw [getHookFuncName_snd_cases, hb]
        simp only
        obtain ⟨m, new, h1, h2, h3, h4, h5, h6, h7⟩ := ih errs w calls (Nat.le_of_lt hlt)
        refine ⟨m, new, Nat.le_succ_of_le h1, h2, h3, h4, ?_, h6, h7⟩
        rw [stopWindow_succ, hAt, hb]
        simpa using h5
      | true =>
        rw [getHookFuncName_snd_cases, hb]
        simp only
        rcases hs : hooks[n].Stop ctx w with ⟨r, w'⟩
        cases r with
        | some err =>
          simp only
          obtain ⟨m, new, h1, h2, h3, h4, h5, h6, h7⟩ :=
            ih (errs ++ [err]) w' (calls ++ [⟨ProcKind.stop, n, some err⟩]) (Nat.le_of_lt hlt)
          refine ⟨m, ⟨ProcKind.stop, n, some err⟩ :: new, Nat.le_succ_of_le h1, h2, ?_, ?_, ?_,
            ?_, h7⟩
          · simpa using h3
          · intro c hc'
            rcases List.mem_cons.1 hc' with rfl | hc'
            · rfl
            · exact h4 c hc'
          · rw [stopWindow_succ, hAt, hb]
            simp [h1, h5]
          · intro hm
            simpa using h6 hm
        | none =>
          simp only
          obtain ⟨m, new, h1, h2, h3, h4, h5, h6, h7⟩ :=
            ih errs w' (calls ++ [⟨ProcKind.stop, n, none⟩]) (Nat.le_of_lt hlt)
          refine ⟨m, ⟨ProcKind.stop, n, none⟩ :: new, Nat.le_succ_of_le h1, h2, ?_, ?_, ?_,
            ?_, h7⟩
          · simpa using h3
          · intro c hc'
            rcases List.mem_cons.1 hc' with rfl | hc'
            · rfl
            · exact h4 c hc'
          · rw [stopWindow_succ, hAt, hb]
            simp [h1, h5]
          · intro hm
            simpa using h6 hm

/-- A state met later at the head of the loop of `Stop` decides how the loop
ends. -/
theorem stopLoop_of_reaches (ctx : HookContext σ) (hooks : List (HookInterface σ))
    (s t : StopState σ) (h : StopReaches ctx hooks s t) :
    stopLoop ctx hooks s.numStarted s.errs s.world s.calls =
      stopLoop ctx hooks t.numStarted t.errs t.world t.calls := by
  induction h with
  | here s => rfl
  | pass n errs w calls errs' w' calls' t hb _ ih =>
    rw [← ih]
    show stopLoop ctx hooks (n + 1) errs w calls = stopLoop ctx hooks n errs' w' calls'
    rw [stopLoop, hb]

/-- The loop of `Stop` at a check that finds the context fired. -/
theorem stopLoop_fired (ctx : HookContext σ) (hooks : List (HookInterface σ))
    (m : Nat) (errs : List GoError) (w : σ) (calls : List Call) (e : GoError)
    (hm : 0 < m) (he : ctx.Err w = some e) :
    stopLoop ctx hooks m errs w calls = (Outcome.returned (some e), m, w, calls) := by
  cases m with
  | zero => omega
  | succ n => simp [stopLoop, stopBody, he]

theorem stopWindow_zero (hooks : List (HookInterface σ)) (n : Nat) :
    stopWindow hooks 0 n = (List.range n).reverse.filter (hasStopAt hooks) := by
  simp [stopWindow]

theorem stopWindow_append (hooks : List (HookInterface σ)) (m : Nat) :
    ∀ k, m ≤ k → stopWindow hooks m k ++ stopWindow hooks 0 m = stopWindow hooks 0 k := by
  intro k
  induction k with
  | zero =>
    intro h
    have : m = 0 := by omega
    subst this
    simp [stopWindow]
  | succ k ih =>
    intro h
    rcases Nat.eq_or_lt_of_le h with h | h
    · subst h
      rw [stopWindow_empty hooks (k + 1) (k + 1) (Nat.le_refl _)]
      rfl
    · have hmk : m ≤ k := Nat.le_of_lt_succ h
      rw [stopWindow_succ hooks m k, stopWindow_succ hooks 0 k]
      cases hb : hasStopAt hooks k with
      | false => simpa using ih hmk
      | true => simpa [hmk] using ih hmk

theorem stopWindow_nodup (hooks : List (HookInterface σ)) (m k : Nat) :
    (stopWindow hooks m k).Nodup := by
  have hsub : List.Sublist (stopWindow hooks m k) (List.range k).reverse :=
    List.filter_sublist _
  exact (List.nodup_reverse.2 (List.nodup_range k)).sublist hsub

/-- The method `Stop`, entered with a counter within the registry. -/
theorem Stop_spec (lc : DefaultLifecycle σ) (ctx : Context σ) (w : σ)
    (hk : lc.numStarted ≤ lc.hooks.length) :
    (lc.Stop ctx w).lc.numStarted ≤ lc.numStarted ∧
    (∀ c ∈ (lc.Stop ctx w).calls, c.kind = ProcKind.stop) ∧
    (lc.Stop ctx w).calls.map (fun c => c.index) =
      stopWindow lc.hooks (lc.Stop ctx w).lc.numStarted lc.numStarted ∧
    ((lc.Stop ctx w).lc.numStarted = 0 → (lc.Stop ctx w).outcome =
      Outcome.returned (Combine ((lc.Stop ctx w).calls.filterMap (fun c => c.result)))) ∧
    (0 < (lc.Stop ctx w).lc.numStarted → ∃ e, ctx.Err (lc.Stop ctx w).world = some e ∧
      (lc.Stop ctx w).outcome = Outcome.returned (some e)) := by
  obtain ⟨m, new, h1, h2, h3, h4, h5, h6, h7⟩ :=
    stopLoop_spec (WithCancel ctx) lc.hooks lc.numStarted [] w [] hk
  have hn : (lc.Stop ctx w).lc.numStarted = m := h2
  have hc : (lc.Stop ctx w).calls = new := by
    show (stopLoop (WithCancel ctx) lc.hooks lc.numStarted [] w []).2.2.2 = new
    rw [h3]; rfl
  rw [hn, hc]
  refine ⟨h1, h4, h5, ?_, h7⟩
  intro hm
  have := h6 hm
  simpa using this

/-- The method `Stop` with a context that never fires, entered with a counter
within the registry. -/
theorem Stop_never_fires (lc : DefaultLifecycle σ) (ctx : Context σ) (w : σ)
    (hk : lc.numStarted ≤ lc.hooks.length) (hctx : NeverFires ctx) :
    (lc.Stop ctx w).lc.numStarted = 0 ∧
    (∀ c ∈ (lc.Stop ctx w).calls, c.kind = ProcKind.stop) ∧
    (lc.Stop ctx w).calls.map (fun c => c.index) =
      (List.range lc.numStarted).reverse.filter (hasStopAt lc.hooks) ∧
    (lc.Stop ctx w).outcome =
      Outcome.returned (Combine ((lc.Stop ctx w).calls.filterMap (fun c => c.result))) := by
  obtain ⟨_, h2, h3, h4, h5⟩ := Stop_spec lc ctx w hk
  have h0 : (lc.Stop ctx w).lc.numStarted = 0 := by
    rcases Nat.eq_zero_or_pos (lc.Stop ctx w).lc.numStarted with h | h
    · exact h
    · obtain ⟨e, he, _⟩ := h5 h
      rw [hctx] at he
      cases he
  refine ⟨h0, h2, ?_, h4 h0⟩
  rw [h3, h0, stopWindow_zero]

theorem Combine_eq_none_iff (l : List GoError) : Combine l = none ↔ l = [] := by
  cases l <;> simp [Combine]

theorem startLoop_numStarted_le (ctx : HookContext σ) :
    ∀ (hooks : List (HookInterface σ)) (idx n : Nat) (w : σ) (calls : List Call),
      (startLoop ctx hooks idx n w calls).2.1 ≤ n + hooks.length := by
  intro hooks
  induction hooks with
  | nil => intro idx n w calls; simp [startLoop]
  | cons hd tl ih =>
    intro idx n w calls
    unfold startLoop
    cases hb : (getHookFuncName hd true).2 with
    | false =>
      rw [getHookFuncName_snd_cases, hb]
      simp only
      have := ih (idx + 1) (n + 1) w calls
      simp only [List.length_cons]
      omega
    | true =>
      rw [getHookFuncName_snd_cases, hb]
      simp only
      rcases hs : hd.Start ctx w with ⟨r, w'⟩
      cases r with
      | some err => simp
      | none =>
        simp only
        have := ih (idx + 1) (n + 1) w' (calls ++ [⟨ProcKind.start, idx, none⟩])
        simp only [List.length_cons]
        omega

theorem startLoop_numStarted_ge (ctx : HookContext σ) :
    ∀ (hooks : List (HookInterface σ)) (idx n : Nat) (w : σ) (calls : List Call),
      n ≤ (startLoop ctx hooks idx n w calls).2.1 := by
  intro hooks
  induction hooks with
  | nil => intro idx n w calls; simp [startLoop]
  | cons hd tl ih =>
    intro idx n w calls
    unfold startLoop
    cases hb : (getHookFuncName hd true).2 with
    | false =>
      rw [getHookFuncName_snd_cases, hb]
      simp only
      have := ih (idx + 1) (n + 1) w calls
      omega
    | true =>
      rw [getHookFuncName_snd_cases, hb]
      simp only
      rcases hs : hd.Start ctx w with ⟨r, w'⟩
      cases r with
      | some err => simp
      | none =>
        simp only
        have := ih (idx + 1) (n + 1) w' (calls ++ [⟨ProcKind.start, idx, none⟩])
        omega

theorem stopLoop_numStarted_le (ctx : HookContext σ) (hooks : List (HookInterface σ)) :
    ∀ (n : Nat) (errs : List GoError) (w : σ) (calls : List Call),
      (stopLoop ctx hooks n errs w calls).2.1 ≤ n := by
  intro n
  induction n with
  | zero => intro errs w calls; simp [stopLoop]
  | succ n ih =>
    intro errs w calls
    unfold stopLoop
    cases hb : stopBody ctx hooks (n + 1) errs w calls with
    | exit o => simp
    | next errs' w' calls' =>
      simp only
      exact Nat.le_succ_of_le (ih errs' w' calls')

/-- Each operation keeps the counter within the registry, provided a `Start`
is only issued with the counter at zero. -/
theorem runOps_invariant :
    ∀ (ops : List (Op σ)) (s : DefaultLifecycle σ × σ),
      s.1.numStarted ≤ s.1.hooks.length → StartsOnlyAtZero ops s →
      (runOps ops s).1.numStarted ≤ (runOps ops s).1.hooks.length := by
  intro ops
  induction ops with
  | nil => intro s hs _; exact hs
  | cons op ops ih =>
    intro s hs hz
    obtain ⟨lc, w⟩ := s
    cases op with
    | append hook =>
      simp only [StartsOnlyAtZero] at hz
      refine ih _ ?_ hz
      simp only [Op.apply, DefaultLifecycle.Append, List.length_append, List.length_singleton]
      exact Nat.le_succ_of_le hs
    | start ctx =>
      simp only [StartsOnlyAtZero] at hz
      refine ih _ ?_ hz.2
      have h0 : lc.numStarted = 0 := hz.1
      have := startLoop_numStarted_le (WithCancel ctx) lc.hooks 0 lc.numStarted w []
      rw [h0, Nat.zero_add] at this
      show (startLoop (WithCancel ctx) lc.hooks 0 lc.numStarted w []).2.1 ≤ lc.hooks.length
      rw [h0]
      exact this
    | stop ctx =>
      simp only [StartsOnlyAtZero] at hz
      refine ih _ ?_ hz
      have := stopLoop_numStarted_le (WithCancel ctx) lc.hooks lc.numStarted [] w []
      show (stopLoop (WithCancel ctx) lc.hooks lc.numStarted [] w []).2.1 ≤ lc.hooks.length
      exact Nat.le_trans this hs
    | elapse f =>
      simp only [StartsOnlyAtZero] at hz
      exact ih _ hs hz

/-- The counter after the loop of `Start`: it has grown by the number `j` of
hooks passed before the failing one, which sits at position `j`. -/
theorem startLoop_count (ctx : HookContext σ) :
    ∀ (hooks : List (HookInterface σ)) (idx n : Nat) (w : σ) (calls : List Call),
      ∃ j, j ≤ hooks.length ∧
        (startLoop ctx hooks idx n w calls).2.1 = n + j ∧
        ((startLoop ctx hooks idx n w calls).1 = none → j = hooks.length) ∧
        (∀ e, (startLoop ctx hooks idx n w calls).1 = some e → j < hooks.length ∧
          (startLoop ctx hooks idx n w calls).2.2.2.getLast? =
            some ⟨ProcKind.start, idx + j, some e⟩) := by
  intro hooks
  induction hooks with
  | nil =>
    intro idx n w calls
    exact ⟨0, by simp [startLoop]⟩
  | cons hd tl ih =>
    intro idx n w calls
    unfold startLoop
    cases hb : (getHookFuncName hd true).2 with
    | false =>
      rw [getHookFuncName_snd_cases, hb]
      simp only
      obtain ⟨j, h1, h2, h3, h4⟩ := ih (idx + 1) (n + 1) w calls
      refine ⟨j + 1, by simpa using h1, by rw [h2]; omega, ?_, ?_⟩
      · intro hn
        rw [h3 hn]; rfl
      · intro e he
        obtain ⟨h5, h6⟩ := h4 e he
        refine ⟨by simpa using h5, ?_⟩
        rw [h6, show idx + 1 + j = idx + (j + 1) by omega]
    | true =>
      rw [getHookFuncName_snd_cases, hb]
      simp only
      rcases hs : hd.Start ctx w with ⟨r, w'⟩
      cases r with
      | some err =>
        refine ⟨0, by simp, by simp, by simp, ?_⟩
        intro e he
        simp only [Option.some.injEq] at he
        subst he
        simp
      | none =>
        simp only
        obtain ⟨j, h1, h2, h3, h4⟩ :=
          ih (idx + 1) (n + 1) w' (calls ++ [⟨ProcKind.start, idx, none⟩])
        refine ⟨j + 1, by simpa using h1, by rw [h2]; omega, ?_, ?_⟩
        · intro hn
          rw [h3 hn]; rfl
        · intro e he
          obtain ⟨h5, h6⟩ := h4 e he
          refine ⟨by simpa using h5, ?_⟩
          rw [h6, show idx + 1 + j = idx + (j + 1) by omega]

/-- The loop of `Start` uses the context only to hand it to the start
procedures. -/
theorem startLoop_congr_ctx (ctx1 ctx2 : HookContext σ) :
    ∀ (hooks : List (HookInterface σ)) (idx n : Nat) (w : σ) (calls : List Call),
      (∀ h ∈ hooks, ∀ w, h.Start ctx1 w = h.Start ctx2 w) →
      startLoop ctx1 hooks idx n w calls = startLoop ctx2 hooks idx n w calls := by
  intro hooks
  induction hooks with
  | nil => intro idx n w calls _; rfl
  | cons hd tl ih =>
    intro idx n w calls hagree
    have hhd := hagree hd (List.mem_cons_self _ _) w
    have htl : ∀ h ∈ tl, ∀ w, h.Start ctx1 w = h.Start ctx2 w :=
      fun h hh => hagree h (List.mem_cons_of_mem _ hh)
    unfold startLoop
    rw [hhd]
    cases hb : (getHookFuncName hd true).2 with
    | false =>
      rw [getHookFuncName_snd_cases, hb]
      exact ih _ _ _ _ htl
    | true =>
      rw [getHookFuncName_snd_cases, hb]
      simp only
      rcases hd.Start ctx2 w with ⟨r, w'⟩
      cases r with
      | some err => rfl
      | none => exact ih _ _ _ _ htl

theorem stopReaches_numStarted_le (ctx : HookContext σ) (hooks : List (HookInterface σ))
    (s t : StopState σ) (h : StopReaches ctx hooks s t) : t.numStarted ≤ s.numStarted := by
  induction h with
  | here s => exact Nat.le_refl _
  | pass n errs w calls errs' w' calls' t _ _ ih => exact Nat.le_succ_of_le ih

theorem stopIterations_le (ctx : HookContext σ) (hooks : List (HookInterface σ)) :
    ∀ (n : Nat) (errs : List GoError) (w : σ) (calls : List Call),
      stopIterations ctx hooks n errs w calls ≤ n := by
  intro n
  induction n with
  | zero => intro errs w calls; simp [stopIterations]
  | succ n ih =>
    intro errs w calls
    unfold stopIterations
    cases hb : stopBody ctx hooks (n + 1) errs w calls with
    | exit o => simp
    | next errs' w' calls' =>
      simp only
      have := ih errs' w' calls'
      omega

theorem mem_stopWindow_iff (hooks : List (HookInterface σ)) (m k i : Nat) :
    i ∈ stopWindow hooks m k ↔ m ≤ i ∧ i < k ∧ hasStopAt hooks i = true := by
  simp only [stopWindow, List.mem_filter, List.mem_reverse, List.mem_range,
    Bool.and_eq_true, decide_eq_true_eq]
  constructor
  · rintro ⟨h1, h2, h3⟩
    exact ⟨h2, h1, h3⟩
  · rintro ⟨h1, h2, h3⟩
    exact ⟨h2, h1, h3⟩

theorem stopWindow_descending (hooks : List (HookInterface σ)) (m k : Nat) :
    (stopWindow hooks m k).Pairwise (fun a b => b < a) := by
  have h1 : (List.range k).reverse.Pairwise (fun a b => b < a) :=
    List.pairwise_reverse.2 (List.pairwise_lt_range k)
  exact h1.sublist (List.filter_sublist _)

theorem mem_startOrder_iff (hooks : List (HookInterface σ)) (i : Nat) :
    i ∈ startOrder hooks ↔ ∃ h, hooks[i]? = some h ∧ (getHookFuncName h true).2 = true := by
  simp only [startOrder, startOrderFrom, List.mem_map, List.mem_filter, Prod.exists]
  constructor
  · rintro ⟨a, h, ⟨hmem, hb⟩, rfl⟩
    have := List.mk_mem_enumFrom_iff_le_and_getElem?_sub.1 hmem
    exact ⟨h, by simpa using this.2, hb⟩
  · rintro ⟨h, hi, hb⟩
    refine ⟨i, h, ⟨?_, hb⟩, rfl⟩
    exact List.mk_mem_enumFrom_iff_le_and_getElem?_sub.2 ⟨Nat.zero_le _, by simpa using hi⟩

/-- A full pass through the body of the loop of `Stop` at an index within the
snapshot adds the invocation of the stop procedure at that index, if there is
one, and nothing else. -/
theorem stopBody_next (ctx : HookContext σ) (hooks : List (HookInterface σ)) (n : Nat)
    (errs : List GoError) (w : σ) (calls : List Call)
    (errs' : List GoError) (w' : σ) (calls' : List Call) (hlt : n < hooks.length)
    (hb : stopBody ctx hooks (n + 1) errs w calls = StopIter.next errs' w' calls') :
    ∃ pre : List Call, calls' = calls ++ pre ∧
      pre.map (fun c => c.index) = (if hasStopAt hooks n = true then [n] else []) ∧
      (∀ c ∈ pre, c.kind = ProcKind.stop) := by
  unfold stopBody at hb
  cases hc : ctx.Err w with
  | some e => simp [hc] at hb
  | none =>
    have hAt : hasStopAt hooks n = (getHookFuncName hooks[n] false).2 := by
      simp [hasStopAt, List.getElem?_eq_getElem hlt]
    simp only [hc, Option.isSome_none, Bool.false_eq_true, if_false, Nat.add_sub_cancel,
      List.getElem?_eq_getElem hlt] at hb
    cases hg : (getHookFuncName hooks[n] false).2 with
    | false =>
      rw [getHookFuncName_snd_cases, hg] at hb
      simp only [StopIter.next.injEq] at hb
      exact ⟨[], by simp [hb.2.2.symm, hAt, hg]⟩
    | true =>
      rw [getHookFuncName_snd_cases, hg] at hb
      simp only at hb
      rcases hs : hooks[n].Stop ctx w with ⟨r, v⟩
      rw [hs] at hb
      cases r with
      | some err =>
        simp only [StopIter.next.injEq] at hb
        exact ⟨[⟨ProcKind.stop, n, some err⟩], by simp [hb.2.2.symm, hAt, hg]⟩
      | none =>
        simp only [StopIter.next.injEq] at hb
        exact ⟨[⟨ProcKind.stop, n, none⟩], by simp [hb.2.2.symm, hAt, hg]⟩

/-- The loop of `Stop` comes to its head with every value of the counter from
the one at entry down to the one it ends with, having invoked by then the stop
procedures at the indices above that value. -/
theorem stopLoop_visits (ctx : HookContext σ) (hooks : List (HookInterface σ)) :
    ∀ (n : Nat) (errs : List GoError) (w : σ) (calls : List Call), n ≤ hooks.length →
      ∀ j, (stopLoop ctx hooks n errs w calls).2.1 ≤ j → j ≤ n →
        ∃ s : StopState σ, s.numStarted = j ∧
          StopReaches ctx hooks ⟨n, errs, w, calls⟩ s ∧
          ∃ new : List Call, s.calls = calls ++ new ∧
            new.map (fun c => c.index) = stopWindow hooks j n := by
  intro n
  induction n with
  | zero =>
    intro errs w calls _ j _ hj
    have : j = 0 := by omega
    subst this
    exact ⟨⟨0, errs, w, calls⟩, rfl, StopReaches.here _, [], by simp [stopWindow]⟩
  | succ n ih =>
    intro errs w calls hn j hmj hjn
    rcases Nat.eq_or_lt_of_le hjn with hj | hj
    · subst hj
      exact ⟨⟨n + 1, errs, w, calls⟩, rfl, StopReaches.here _, [],
        by simp [stopWindow_empty]⟩
    · have hjn' : j ≤ n := Nat.le_of_lt_succ hj
      have hlt : n < hooks.length := hn
      cases hb : stopBody ctx hooks (n + 1) errs w calls with
      | exit o =>
        rw [stopLoop, hb] at hmj
        simp only at hmj
        omega
      | next errs' w' calls' =>
        rw [stopLoop, hb] at hmj
        simp only at hmj
        obtain ⟨s, hs1, hs2, new, hs3, hs4⟩ :=
          ih errs' w' calls' (Nat.le_of_lt hlt) j hmj hjn'
        obtain ⟨pre, hp1, hp2, _⟩ := stopBody_next ctx hooks n errs w calls errs' w' calls' hlt hb
        refine ⟨s, hs1, StopReaches.pass n errs w calls errs' w' calls' s hb hs2,
          pre ++ new, ?_, ?_⟩
        · rw [hs3, hp1, List.append_assoc]
        · rw [List.map_append, hp2, hs4, stopWindow_succ]
          cases hg : hasStopAt hooks n <;> simp [hjn']

/-- The loop of `Start` gets as far as a hook when the start procedures before
it return no error: it invokes the start procedure of that hook if there is
one, and otherwise counts the hook. -/
theorem startLoop_reaches (ctx : HookContext σ) :
    ∀ (hooks : List (HookInterface σ)) (i : Nat) (hook : HookInterface σ)
      (idx n : Nat) (w : σ) (calls : List Call),
      hooks[i]? = some hook →
      (∀ (j : Nat) (h : HookInterface σ), j < i → hooks[j]? = some h →
        (h.Start ctx (worldAfterStarts ctx (hooks.take j) w)).1 = none) →
      ((getHookFuncName hook true).2 = true →
        idx + i ∈ (startLoop ctx hooks idx n w calls).2.2.2.map (fun c => c.index)) ∧
      ((getHookFuncName hook true).2 = false →
        n + i + 1 ≤ (startLoop ctx hooks idx n w calls).2.1) := by
  intro hooks
  induction hooks with
  | nil => intro i hook idx n w calls hi; simp at hi
  | cons hd tl ih =>
    intro i hook idx n w calls hi hok
    cases i with
    | zero =>
      simp at hi
      subst hi
      unfold startLoop
      cases hb : (getHookFuncName hd true).2 with
      | false =>
        rw [getHookFuncName_snd_cases, hb]
        simp only
        refine ⟨by simp, fun _ => ?_⟩
        have := startLoop_numStarted_ge ctx tl (idx + 1) (n + 1) w calls
        omega
      | true =>
        rw [getHookFuncName_snd_cases, hb]
        simp only
        refine ⟨fun _ => ?_, by simp⟩
        rcases hs : hd.Start ctx w with ⟨r, w'⟩
        cases r with
        | some err => simp
        | none =>
          simp only
          obtain ⟨new, h1, _⟩ :=
            startLoop_calls ctx tl (idx + 1) (n + 1) w' (calls ++ [⟨ProcKind.start, idx, none⟩])
          rw [h1]
          simp
    | succ i =>
      simp at hi
      have h0 : (hd.Start ctx w).1 = none := by
        have := hok 0 hd (Nat.succ_pos i) (by simp)
        simpa [worldAfterStarts] using this
      have hok' : ∀ (j : Nat) (h : HookInterface σ), j < i → tl[j]? = some h →
          (h.Start ctx (worldAfterStarts ctx (tl.take j) (hd.Start ctx w).2)).1 = none := by
        intro j h hj hjh
        have := hok (j + 1) h (Nat.succ_lt_succ hj) (by simpa using hjh)
        simpa [worldAfterStarts_cons] using this
      unfold startLoop
      cases hb : (getHookFuncName hd true).2 with
      | false =>
        rw [getHookFuncName_snd_cases hd true, hb]
        simp only
        rw [start_eq_of_no_start_proc hd ctx w hb] at hok'
        have := ih i hook (idx + 1) (n + 1) w calls hi hok'
        rw [show idx + (i + 1) = idx + 1 + i by omega, show n + (i + 1) + 1 = n + 1 + i + 1 by omega]
        exact this
      | true =>
        rw [getHookFuncName_snd_cases hd true, hb]
        simp only
        rcases hs : hd.Start ctx w with ⟨r, w'⟩
        rw [hs] at h0 hok'
        simp at h0
        subst h0
        simp only
        have := ih i hook (idx + 1) (n + 1) w' (calls ++ [⟨ProcKind.start, idx, none⟩]) hi hok'
        rw [show idx + (i + 1) = idx + 1 + i by omega, show n + (i + 1) + 1 = n + 1 + i + 1 by omega]
        exact this

theorem printStartHooks_eq :
    ∀ (tl pre : List (HookInterface σ)),
      printStartHooks tl =
        (startOrderFrom pre.length tl).map (fun i => listed (procName (pre ++ tl) true i)) := by
  intro tl
  induction tl with
  | nil => intro pre; simp [printStartHooks, startOrderFrom]
  | cons hd rest ih =>
    intro pre
    have hih := ih (pre ++ [hd])
    simp only [List.length_append, List.length_singleton, List.append_assoc,
      List.singleton_append] at hih
    have hget : (pre ++ hd :: rest)[pre.length]? = some hd := by
      rw [List.getElem?_append_right (Nat.le_refl _)]
      simp
    have hname : procName (pre ++ hd :: rest) true pre.length = (getHookFuncName hd true).1 := by
      simp only [procName, hget]
    unfold printStartHooks
    cases hb : (getHookFuncName hd true).2 with
    | false =>
      rw [getHookFuncName_snd_cases, hb]
      simp only
      rw [hih]
      simp [startOrderFrom, List.enumFrom_cons, hb]
    | true =>
      rw [getHookFuncName_snd_cases, hb]
      simp only
      rw [hih]
      simp [startOrderFrom, List.enumFrom_cons, hb, hname, listed]

theorem printStopHooks_eq (hooks : List (HookInterface σ)) :
    ∀ (n : Nat) (h : n ≤ hooks.length),
      printStopHooks hooks n h =
        (stopWindow hooks 0 n).map (fun i => listed (procName hooks false i)) := by
  intro n
  induction n with
  | zero => intro h; simp [printStopHooks, stopWindow]
  | succ n ih =>
    intro h
    have hlt : n < hooks.length := h
    have hAt : hasStopAt hooks n = (getHookFuncName hooks[n] false).2 := by
      simp [hasStopAt, List.getElem?_eq_getElem hlt]
    have hname : procName hooks false n = (getHookFuncName hooks[n] false).1 := by
      simp [procName, List.getElem?_eq_getElem hlt]
    unfold printStopHooks
    simp only [List.get_eq_getElem]
    rw [stopWindow_succ, hAt]
    cases hb : (getHookFuncName hooks[n] false).2 with
    | false =>
      rw [getHookFuncName_snd_cases, hb]
      simp [ih]
    | true =>
      rw [getHookFuncName_snd_cases, hb]
      simp [ih, hname, listed]

/-- A property of the world that every start procedure keeps is kept by the
loop of `Start`. -/
theorem startLoop_preserves (ctx : HookContext σ) (Q : σ → Prop) :
    ∀ (hooks : List (HookInterface σ)) (idx n : Nat) (w : σ) (calls : List Call),
      (∀ h ∈ hooks, ∀ v, Q v → Q (h.Start ctx v).2) → Q w →
      Q (startLoop ctx hooks idx n w calls).2.2.1 := by
  intro hooks
  induction hooks with
  | nil => intro idx n w calls _ hw; exact hw
  | cons hd tl ih =>
    intro idx n w calls hQ hw
    have hhd := hQ hd (List.mem_cons_self _ _) w hw
    have htl : ∀ h ∈ tl, ∀ v, Q v → Q (h.Start ctx v).2 :=
      fun h hh => hQ h (List.mem_cons_of_mem _ hh)
    unfold startLoop
    cases hb : (getHookFuncName hd true).2 with
    | false =>
      rw [getHookFuncName_snd_cases, hb]
      exact ih _ _ _ _ htl hw
    | true =>
      rw [getHookFuncName_snd_cases, hb]
      simp only
      rcases hs : hd.Start ctx w with ⟨r, w'⟩
      rw [hs] at hhd
      cases r with
      | some err => exact hhd
      | none => exact ih _ _ _ _ htl hhd

/-- A property of the world that every stop procedure keeps is kept by the
loop of `Stop`. -/
theorem stopLoop_preserves (ctx : HookContext σ) (Q : σ → Prop)
    (hooks : List (HookInterface σ)) (hQ : ∀ h ∈ hooks, ∀ v, Q v → Q (h.Stop ctx v).2) :
    ∀ (n : Nat) (errs : List GoError) (w : σ) (calls : List Call), Q w →
      Q (stopLoop ctx hooks n errs w calls).2.2.1 := by
  intro n
  induction n with
  | zero => intro errs w calls hw; exact hw
  | succ n ih =>
    intro errs w calls hw
    unfold stopLoop stopBody
    cases hc : ctx.Err w with
    | some e => simpa [hc] using hw
    | none =>
      simp only [Option.isSome_none, Bool.false_eq_true, if_false, Nat.add_sub_cancel]
      cases hg : hooks[n]? with
      | none => exact hw
      | some hook =>
        have hmem : hook ∈ hooks := List.getElem?_mem hg
        simp only
        cases hb : (getHookFuncName hook false).2 with
        | false =>
          rw [getHookFuncName_snd_cases, hb]
          exact ih _ _ _ hw
        | true =>
          rw [getHookFuncName_snd_cases, hb]
          simp only
          have hh := hQ hook hmem w hw
          rcases hs : hook.Stop ctx w with ⟨r, w'⟩
          rw [hs] at hh
          cases r with
          | some err => exact ih _ _ _ hh
          | none => exact ih _ _ _ hh

/-- The loop of `Start` depends on the hooks only through their names and
through what their start procedures do with the context of the loop. -/
theorem startLoop_congr_hooks (ctx : HookContext σ) :
    ∀ (hooks hooks' : List (HookInterface σ)), List.Forall₂ (SameAt ctx) hooks hooks' →
      ∀ (idx n : Nat) (w : σ) (calls : List Call),
        startLoop ctx hooks idx n w calls = startLoop ctx hooks' idx n w calls := by
  intro hooks hooks' h
  induction h with
  | nil => intro idx n w calls; rfl
  | @cons a b l1 l2 hab _ ih =>
    intro idx n w calls
    unfold startLoop
    rw [hab.1 true, hab.2.1 w]
    cases hb : (getHookFuncName b true).2 with
    | false =>
      rw [getHookFuncName_snd_cases, hb]
      exact ih _ _ _ _
    | true =>
      rw [getHookFuncName_snd_cases, hb]
      simp only
      rcases b.Start ctx w with ⟨r, w'⟩
      cases r with
      | some err => rfl
      | none => exact ih _ _ _ _

/-- The loop of `Stop` depends on the hooks only through their names and
through what their stop procedures do with the context of the loop. -/
theorem stopLoop_congr_hooks (ctx : HookContext σ) (hooks hooks' : List (HookInterface σ))
    (h : List.Forall₂ (SameAt ctx) hooks hooks') :
    ∀ (n : Nat) (errs : List GoError) (w : σ) (calls : List Call),
      stopLoop ctx hooks n errs w calls = stopLoop ctx hooks' n errs w calls := by
  have hget : ∀ n : Nat, (hooks[n]? = none ∧ hooks'[n]? = none) ∨
      ∃ a b, hooks[n]? = some a ∧ hooks'[n]? = some b ∧ SameAt ctx a b := by
    intro n
    induction h generalizing n with
    | nil => left; simp
    | cons hab _ ih =>
      cases n with
      | zero => right; exact ⟨_, _, by simp, by simp, hab⟩
      | succ n => simpa using ih n
  intro n
  induction n with
  | zero => intro errs w calls; rfl
  | succ n ih =>
    intro errs w calls
    unfold stopLoop stopBody
    cases hc : ctx.Err w with
    | some e => simp
    | none =>
      simp only [Option.isSome_none, Bool.false_eq_true, if_false, Nat.add_sub_cancel]
      rcases hget n with ⟨h1, h2⟩ | ⟨a, b, h1, h2, hab⟩
      · rw [h1, h2]
      · rw [h1, h2]
        simp only
        rw [hab.1 false, hab.2.2 w]
        cases hb : (getHookFuncName b false).2 with
        | false =>
          rw [getHookFuncName_snd_cases, hb]
          exact ih _ _ _
        | true =>
          rw [getHookFuncName_snd_cases, hb]
          simp only
          rcases b.Stop ctx w with ⟨r, w'⟩
          cases r with
          | some err => exact ih _ _ _
          | none => exact ih _ _ _

/-- When the loop of `Start` gets to a hook with a start procedure, a property
of the world that this procedure brings about and every start procedure keeps
holds when the loop ends. -/
theorem startLoop_establishes (ctx : HookContext σ) (P Q : σ → Prop) :
    ∀ (hooks : List (HookInterface σ)) (i : Nat) (hook : HookInterface σ)
      (idx n : Nat) (w : σ) (calls : List Call),
      hooks[i]? = some hook → (getHookFuncName hook true).2 = true →
      (∀ (j : Nat) (h : HookInterface σ), j < i → hooks[j]? = some h →
        (h.Start ctx (worldAfterStarts ctx (hooks.take j) w)).1 = none) →
      (∀ g ∈ hooks, ∀ v, P v → P (g.Start ctx v).2) →
      (∀ g ∈ hooks, ∀ v, Q v → Q (g.Start ctx v).2) →
      (∀ v, P v → Q (hook.Start ctx v).2) →
      P w → Q (startLoop ctx hooks idx n w calls).2.2.1 := by
  intro hooks
  induction hooks with
  | nil => intro i hook idx n w calls hi; simp at hi
  | cons hd tl ih =>
    intro i hook idx n w calls hi hs hok hP hQ hest hw
    have hPtl : ∀ g ∈ tl, ∀ v, P v → P (g.Start ctx v).2 :=
      fun g hg => hP g (List.mem_cons_of_mem _ hg)
    have hQtl : ∀ g ∈ tl, ∀ v, Q v → Q (g.Start ctx v).2 :=
      fun g hg => hQ g (List.mem_cons_of_mem _ hg)
    cases i with
    | zero =>
      simp at hi
      subst hi
      have hq := hest w hw
      unfold startLoop
      rw [getHookFuncName_snd_cases, hs]
      simp only
      rcases hst : hd.Start ctx w with ⟨r, w'⟩
      rw [hst] at hq
      cases r with
      | some err => exact hq
      | none => exact startLoop_preserves ctx Q tl _ _ _ _ hQtl hq
    | succ i =>
      simp at hi
      have h0 : (hd.Start ctx w).1 = none := by
        have := hok 0 hd (Nat.succ_pos i) (by simp)
        simpa [worldAfterStarts] using this
      have hok' : ∀ (j : Nat) (h : HookInterface σ), j < i → tl[j]? = some h →
          (h.Start ctx (worldAfterStarts ctx (tl.take j) (hd.Start ctx w).2)).1 = none := by
        intro j h hj hjh
        have := hok (j + 1) h (Nat.succ_lt_succ hj) (by simpa using hjh)
        simpa [worldAfterStarts_cons] using this
      have hp := hP hd (List.mem_cons_self _ _) w hw
      unfold startLoop
      cases hb : (getHookFuncName hd true).2 with
      | false =>
        rw [getHookFuncName_snd_cases hd true, hb]
        simp only
        rw [start_eq_of_no_start_proc hd ctx w hb] at hok'
        exact ih i hook _ _ w _ hi hs hok' hPtl hQtl hest hw
      | true =>
        rw [getHookFuncName_snd_cases hd true, hb]
        simp only
        rcases hst : hd.Start ctx w with ⟨r, w'⟩
        rw [hst] at h0 hok' hp
        simp at h0
        subst h0
        exact ih i hook _ _ w' _ hi hs hok' hPtl hQtl hest hp

/-- When the context never fires, the loop of `Stop` gets to every hook below
the counter; a property of the world that the stop procedure of one of them
brings about and every stop procedure keeps holds when the loop ends. -/
theorem stopLoop_establishes (ctx : HookContext σ) (P Q : σ → Prop)
    (hooks : List (HookInterface σ)) (i : Nat) (hook : HookInterface σ)
    (hi : hooks[i]? = some hook) (hs : (getHookFuncName hook false).2 = true)
    (hctx : ∀ v, ctx.Err v = none)
    (hP : ∀ g ∈ hooks, ∀ v, P v → P (g.Stop ctx v).2)
    (hQ : ∀ g ∈ hooks, ∀ v, Q v → Q (g.Stop ctx v).2)
    (hest : ∀ v, P v → Q (hook.Stop ctx v).2) :
    ∀ (n : Nat) (errs : List GoError) (w : σ) (calls : List Call),
      i < n → n ≤ hooks.length → P w → Q (stopLoop ctx hooks n errs w calls).2.2.1 := by
  intro n
  induction n with
  | zero => intro errs w calls hin; omega
  | succ n ih =>
    intro errs w calls hin hn hw
    have hlt : n < hooks.length := hn
    have hmem : hooks[n] ∈ hooks := List.getElem_mem _
    unfold stopLoop stopBody
    simp only [hctx w, Option.isSome_none, Bool.false_eq_true, if_false, Nat.add_sub_cancel,
      List.getElem?_eq_getElem hlt]
    rcases Nat.eq_or_lt_of_le (Nat.le_of_lt_succ hin) with hin' | hin'
    · subst hin'
      have hg : hooks[i] = hook := by
        have := List.getElem?_eq_getElem hlt
        rw [hi] at this
        exact (Option.some.inj this).symm
      rw [hg, getHookFuncName_snd_cases hook false, hs]
      simp only
      have hq := hest w hw
      rcases hst : hook.Stop ctx w with ⟨r, w'⟩
      rw [hst] at hq
      cases r with
      | some err => exact stopLoop_preserves ctx Q hooks hQ _ _ _ _ hq
      | none => exact stopLoop_preserves ctx Q hooks hQ _ _ _ _ hq
    · cases hb : (getHookFuncName hooks[n] false).2 with
      | false =>
        rw [getHookFuncName_snd_cases hooks[n] false, hb]
        exact ih _ _ _ hin' (Nat.le_of_lt hlt) hw
      | true =>
        rw [getHookFuncName_snd_cases hooks[n] false, hb]
        simp only
        have hp := hP hooks[n] hmem w hw
        rcases hst : hooks[n].Stop ctx w with ⟨r, w'⟩
        rw [hst] at hp
        cases r with
        | some err => exact ih _ _ _ hin' (Nat.le_of_lt hlt) hp
        | none => exact ih _ _ _ hin' (Nat.le_of_lt hlt) hp

/-- A stretch of steps without `Lock`, begun with the mutex not held, has all
its steps with the mutex not held. -/
theorem obeys_unlocked (p : Access → Bool) :
    ∀ t : List Access, (∀ a ∈ t, a ≠ Access.lock) → obeys p false false t = true := by
  intro t
  induction t with
  | nil => intro _; rfl
  | cons a rest ih =>
    intro h
    have ha := h a (List.mem_cons_self _ _)
    have hrest := ih (fun b hb => h b (List.mem_cons_of_mem _ hb))
    cases a <;> simp_all [obeys, heldAfter]

/-- A stretch of steps none of which is of the kind `p` obeys any discipline
about `p`. -/
theorem obeys_vacuous (p : Access → Bool) (want : Bool) :
    ∀ (t : List Access) (held : Bool), (∀ a ∈ t, p a = false) → obeys p want held t = true := by
  intro t
  induction t with
  | nil => intro _ _; rfl
  | cons a rest ih =>
    intro held h
    have ha := h a (List.mem_cons_self _ _)
    have hrest := ih (heldAfter held a) (fun b hb => h b (List.mem_cons_of_mem _ hb))
    simp [obeys, ha, hrest]

theorem startLoopAccesses_kinds (ctx : HookContext σ) :
    ∀ (hooks : List (HookInterface σ)) (idx : Nat) (w : σ),
      ∀ a ∈ startLoopAccesses ctx hooks idx w, a ≠ Access.lock ∧ isRegistryAccess a = false := by
  intro hooks
  induction hooks with
  | nil => intro idx w a ha; simp [startLoopAccesses] at ha
  | cons hd tl ih =>
    intro idx w a ha
    unfold startLoopAccesses at ha
    cases hb : (getHookFuncName hd true).2 with
    | false =>
      rw [getHookFuncName_snd_cases, hb] at ha
      simp only [List.cons_append, List.nil_append, List.mem_cons] at ha
      rcases ha with rfl | rfl | ha
      · exact ⟨by simp, rfl⟩
      · exact ⟨by simp, rfl⟩
      · exact ih _ _ a ha
    | true =>
      rw [getHookFuncName_snd_cases, hb] at ha
      simp only at ha
      rcases hs : hd.Start ctx w with ⟨r, w'⟩
      rw [hs] at ha
      cases r with
      | some err =>
        simp only [List.mem_singleton] at ha
        subst ha
        exact ⟨by simp, rfl⟩
      | none =>
        simp only [List.cons_append, List.nil_append, List.mem_cons] at ha
        rcases ha with rfl | rfl | rfl | ha
        · exact ⟨by simp, rfl⟩
        · exact ⟨by simp, rfl⟩
        · exact ⟨by simp, rfl⟩
        · exact ih _ _ a ha

theorem stopLoopAccesses_kinds (ctx : HookContext σ) (hooks : List (HookInterface σ)) :
    ∀ (n : Nat) (w : σ),
      ∀ a ∈ stopLoopAccesses ctx hooks n w, a ≠ Access.lock ∧ isRegistryAccess a = false := by
  intro n
  induction n with
  | zero =>
    intro w a ha
    simp only [stopLoopAccesses, List.mem_singleton] at ha
    subst ha
    exact ⟨by simp, rfl⟩
  | succ n ih =>
    intro w a ha
    unfold stopLoopAccesses at ha
    rcases List.mem_cons.1 ha with rfl | ha
    · exact ⟨by simp, rfl⟩
    · cases hc : (ctx.Err w).isSome with
      | true => simp [hc] at ha
      | false =>
        simp only [hc, Bool.false_eq_true, if_false] at ha
        rcases List.mem_cons.1 ha with rfl | ha
        · exact ⟨by simp, rfl⟩
        · cases hg : hooks[n]? with
          | none => simp [hg] at ha
          | some hook =>
            simp only [hg] at ha
            cases hb : (getHookFuncName hook false).2 with
            | false =>
              rw [getHookFuncName_snd_cases, hb] at ha
              simp only [List.cons_append, List.nil_append, List.mem_cons] at ha
              rcases ha with rfl | rfl | ha
              · exact ⟨by simp, rfl⟩
              · exact ⟨by simp, rfl⟩
              · exact ih _ a ha
            | true =>
              rw [getHookFuncName_snd_cases, hb] at ha
              simp only [List.cons_append, List.nil_append, List.mem_cons] at ha
              rcases ha with rfl | rfl | rfl | ha
              · exact ⟨by simp, rfl⟩
              · exact ⟨by simp, rfl⟩
              · exact ⟨by simp, rfl⟩
              · exact ih _ a ha

/-- The invocations among the steps of the loop of `Start` are the invocations
of the loop of `Start`. -/
theorem startLoop_invokes (ctx : HookContext σ) :
    ∀ (hooks : List (HookInterface σ)) (idx n : Nat) (w : σ) (calls : List Call),
      (startLoop ctx hooks idx n w calls).2.2.2 =
        calls ++ invokesOf (startLoopAccesses ctx hooks idx w) := by
  intro hooks
  induction hooks with
  | nil => intro idx n w calls; simp [startLoop, startLoopAccesses, invokesOf]
  | cons hd tl ih =>
    intro idx n w calls
    unfold startLoop startLoopAccesses
    cases hb : (getHookFuncName hd true).2 with
    | false =>
      rw [getHookFuncName_snd_cases, hb]
      simp only
      rw [ih]
      simp [invokesOf]
    | true =>
      rw [getHookFuncName_snd_cases, hb]
      simp only
      rcases hs : hd.Start ctx w with ⟨r, w'⟩
      cases r with
      | some err => simp [invokesOf]
      | none =>
        simp only
        rw [ih]
        simp [invokesOf]

/-- The invocations among the steps of the loop of `Stop` are the invocations
of the loop of `Stop`. -/
theorem stopLoop_invokes (ctx : HookContext σ) (hooks : List (HookInterface σ)) :
    ∀ (n : Nat) (errs : List GoError) (w : σ) (calls : List Call),
      (stopLoop ctx hooks n errs w calls).2.2.2 =
        calls ++ invokesOf (stopLoopAccesses ctx hooks n w) := by
  intro n
  induction n with
  | zero => intro errs w calls; simp [stopLoop, stopLoopAccesses, invokesOf]
  | succ n ih =>
    intro errs w calls
    unfold stopLoop stopBody stopLoopAccesses
    cases hc : (ctx.Err w).isSome with
    | true => simp [invokesOf]
    | false =>
      simp only [Bool.false_eq_true, if_false, Nat.add_sub_cancel]
      cases hg : hooks[n]? with
      | none => simp [invokesOf]
      | some hook =>
        simp only
        cases hb : (getHookFuncName hook false).2 with
        | false =>
          rw [getHookFuncName_snd_cases, hb]
          simp only
          rw [ih]
          simp [invokesOf]
        | true =>
          rw [getHookFuncName_snd_cases, hb]
          simp only
          rcases hs : hook.Stop ctx w with ⟨r, w'⟩
          cases r with
          | some err =>
            simp only
            rw [ih]
            simp [invokesOf]
          | none =>
            simp only
            rw [ih]
            simp [invokesOf]

theorem has_start_eq_startProcOf (h : HookInterface σ) :
    (getHookFuncName h true).2 = (startProcOf h).isSome := by
  cases h with
  | hook hk => cases hs : hk.OnStart <;> simp [getHookFuncName, startProcOf, hs]
  | object t s p => simp [getHookFuncName, startProcOf]

theorem has_stop_eq_stopProcOf (h : HookInterface σ) :
    (getHookFuncName h false).2 = (stopProcOf h).isSome := by
  cases h with
  | hook hk => cases hs : hk.OnStop <;> simp [getHookFuncName, stopProcOf, hs]
  | object t s p => simp [getHookFuncName, stopProcOf]

/-- The method `Start` of a hook runs its start procedure. -/
theorem Start_eq_startProcOf (h : HookInterface σ)
    (f : HookContext σ → σ → Option GoError × σ) (hf : startProcOf h = some f)
    (c : HookContext σ) (v : σ) : h.Start c v = f c v := by
  cases h with
  | hook hk =>
    cases hs : hk.OnStart with
    | none => simp [startProcOf, hs] at hf
    | some f0 =>
      simp only [startProcOf, hs, Option.map_some', Option.some.injEq] at hf
      subst hf
      simp [HookInterface.Start, Hook.Start, hs]
  | object t s p =>
    simp only [startProcOf, Option.some.injEq] at hf
    subst hf
    rfl

/-- The method `Stop` of a hook runs its stop procedure. -/
theorem Stop_eq_stopProcOf (h : HookInterface σ)
    (g : HookContext σ → σ → Option GoError × σ) (hg : stopProcOf h = some g)
    (c : HookContext σ) (v : σ) : h.Stop c v = g c v := by
  cases h with
  | hook hk =>
    cases hs : hk.OnStop with
    | none => simp [stopProcOf, hs] at hg
    | some g0 =>
      simp only [stopProcOf, hs, Option.map_some', Option.some.injEq] at hg
      subst hg
      simp [HookInterface.Stop, Hook.Stop, hs]
  | object t s p =>
    simp only [stopProcOf, Option.some.injEq] at hg
    subst hg
    rfl

/-- The method `Stop` of a hook without a stop procedure does nothing. -/
theorem Stop_eq_of_no_stopProc (h : HookInterface σ) (hg : stopProcOf h = none)
    (c : HookContext σ) (v : σ) : h.Stop c v = (none, v) := by
  cases h with
  | hook hk =>
    cases hs : hk.OnStop with
    | none => simp [HookInterface.Stop, Hook.Stop, hs]
    | some g0 => simp [stopProcOf, hs] at hg
  | object t s p => simp [stopProcOf] at hg

/-- The loop of `Start` does what the spec prescribes. -/
theorem startLoop_eq_spec (ctx : HookContext σ) :
    ∀ (hooks : List (HookInterface σ)) (idx n : Nat) (w : σ) (calls : List Call),
      (startLoop ctx hooks idx n w calls).1 = (specStartRun ctx hooks idx w).2.1 ∧
      (startLoop ctx hooks idx n w calls).2.2.1 = (specStartRun ctx hooks idx w).2.2 ∧
      (startLoop ctx hooks idx n w calls).2.2.2 = calls ++ (specStartRun ctx hooks idx w).1 := by
  intro hooks
  induction hooks with
  | nil => intro idx n w calls; simp [startLoop, specStartRun]
  | cons hd tl ih =>
    intro idx n w calls
    have hflag := has_start_eq_startProcOf hd
    unfold startLoop specStartRun
    cases hp : startProcOf hd with
    | none =>
      rw [hp] at hflag
      rw [getHookFuncName_snd_cases, hflag]
      exact ih _ _ _ _
    | some f =>
      rw [hp] at hflag
      rw [getHookFuncName_snd_cases, hflag]
      simp only [Option.isSome_some]
      rw [Start_eq_startProcOf hd f hp]
      rcases hs : f ctx w with ⟨r, w'⟩
      cases r with
      | some err => simp
      | none =>
        simp only
        obtain ⟨h1, h2, h3⟩ := ih (idx + 1) (n + 1) w' (calls ++ [⟨ProcKind.start, idx, none⟩])
        refine ⟨h1, h2, ?_⟩
        rw [h3]
        simp

/-- The loop of `Stop`, entered with a counter within the snapshot and a
context that never fires, does what the spec prescribes. -/
theorem stopLoop_eq_spec (ctx : HookContext σ) (hooks : List (HookInterface σ))
    (hctx : ∀ v, ctx.Err v = none) :
    ∀ (n : Nat) (errs : List GoError) (w : σ) (calls : List Call), n ≤ hooks.length →
      stopLoop ctx hooks n errs w calls =
        (Outcome.returned
            (Combine (errs ++ (specStopRun ctx hooks n w).1.filterMap (fun c => c.result))),
          0, (specStopRun ctx hooks n w).2, calls ++ (specStopRun ctx hooks n w).1) := by
  intro n
  induction n with
  | zero => intro errs w calls _; simp [stopLoop, specStopRun]
  | succ n ih =>
    intro errs w calls hn
    have hlt : n < hooks.length := hn
    have hflag := has_stop_eq_stopProcOf hooks[n]
    unfold stopLoop stopBody specStopRun
    simp only [hctx w, Option.isSome_none, Bool.false_eq_true, if_false, Nat.add_sub_cancel,
      List.getElem?_eq_getElem hlt]
    cases hp : stopProcOf hooks[n] with
    | none =>
      rw [hp] at hflag
      rw [getHookFuncName_snd_cases, hflag]
      exact ih _ _ _ (Nat.le_of_lt hlt)
    | some g =>
      rw [hp] at hflag
      rw [getHookFuncName_snd_cases, hflag]
      simp only [Option.isSome_some]
      rw [Stop_eq_stopProcOf hooks[n] g hp]
      rcases hs : g ctx w with ⟨r, w'⟩
      cases r with
      | some err =>
        simp only
        rw [ih _ _ _ (Nat.le_of_lt hlt)]
        simp
      | none =>
        simp only
        rw [ih _ _ _ (Nat.le_of_lt hlt)]
        simp

theorem mem_startOrder_iff_startProcOf (hooks : List (HookInterface σ)) (i : Nat) :
    i ∈ startOrder hooks ↔ ∃ h, hooks[i]? = some h ∧ (startProcOf h).isSome = true := by
  rw [mem_startOrder_iff]
  constructor
  · rintro ⟨h, h1, h2⟩
    exact ⟨h, h1, by rw [← has_start_eq_startProcOf]; exact h2⟩
  · rintro ⟨h, h1, h2⟩
    exact ⟨h, h1, by rw [has_start_eq_startProcOf]; exact h2⟩

theorem hasStopAt_iff_stopProcOf (hooks : List (HookInterface σ)) (i : Nat) :
    hasStopAt hooks i = true ↔ ∃ h, hooks[i]? = some h ∧ (stopProcOf h).isSome = true := by
  unfold hasStopAt
  cases hg : hooks[i]? with
  | none => simp
  | some h => simp [has_stop_eq_stopProcOf]

/-- When the start procedures before a hook return no error, the loop of
`Start` invokes the `Start` method of that hook, if it has a start procedure,
in the world left by them, and records what it returned. -/
theorem startLoop_reaches_call (ctx : HookContext σ) :
    ∀ (hooks : List (HookInterface σ)) (i : Nat) (hook : HookInterface σ)
      (idx n : Nat) (w : σ) (calls : List Call),
      hooks[i]? = some hook →
      (∀ (j : Nat) (h : HookInterface σ), j < i → hooks[j]? = some h →
        (h.Start ctx (worldAfterStarts ctx (hooks.take j) w)).1 = none) →
      (getHookFuncName hook true).2 = true →
      (⟨ProcKind.start, idx + i,
          (hook.Start ctx (worldAfterStarts ctx (hooks.take i) w)).1⟩ : Call) ∈
        (startLoop ctx hooks idx n w calls).2.2.2 := by
  intro hooks
  induction hooks with
  | nil => intro i hook idx n w calls hi; simp at hi
  | cons hd tl ih =>
    intro i hook idx n w calls hi hok hs
    cases i with
    | zero =>
      simp at hi
      subst hi
      unfold startLoop
      rw [getHookFuncName_snd_cases, hs]
      simp only [List.take_zero, worldAfterStarts, List.foldl_nil, Nat.add_zero]
      rcases hst : hd.Start ctx w with ⟨r, w'⟩
      cases r with
      | some err => simp
      | none =>
        simp only
        obtain ⟨new, h1, _⟩ :=
          startLoop_calls ctx tl (idx + 1) (n + 1) w' (calls ++ [⟨ProcKind.start, idx, none⟩])
        rw [h1]
        simp
    | succ i =>
      simp at hi
      have h0 : (hd.Start ctx w).1 = none := by
        have := hok 0 hd (Nat.succ_pos i) (by simp)
        simpa [worldAfterStarts] using this
      have hok' : ∀ (j : Nat) (h : HookInterface σ), j < i → tl[j]? = some h →
          (h.Start ctx (worldAfterStarts ctx (tl.take j) (hd.Start ctx w).2)).1 = none := by
        intro j h hj hjh
        have := hok (j + 1) h (Nat.succ_lt_succ hj) (by simpa using hjh)
        simpa [worldAfterStarts_cons] using this
      have hw : worldAfterStarts ctx ((hd :: tl).take (i + 1)) w =
          worldAfterStarts ctx (tl.take i) (hd.Start ctx w).2 := by
        simp [worldAfterStarts_cons]
      rw [hw, show idx + (i + 1) = idx + 1 + i by omega]
      unfold startLoop
      cases hb : (getHookFuncName hd true).2 with
      | false =>
        rw [getHookFuncName_snd_cases hd true, hb]
        simp only
        rw [start_eq_of_no_start_proc hd ctx w hb] at hok' ⊢
        exact ih i hook (idx + 1) (n + 1) w calls hi hok' hs
      | true =>
        rw [getHookFuncName_snd_cases hd true, hb]
        simp only
        rcases hst : hd.Start ctx w with ⟨r, w'⟩
        rw [hst] at h0 hok'
        simp at h0
        subst h0
        exact ih i hook (idx + 1) (n + 1) w' _ hi hok' hs

/-- When the context never fires, the loop of `Stop` invokes the `Stop` method
of every hook below the counter that has a stop procedure, and records what
it returned. -/
theorem stopLoop_reaches_call (ctx : HookContext σ) (hooks : List (HookInterface σ))
    (hctx : ∀ v, ctx.Err v = none) (i : Nat) (hook : HookInterface σ)
    (hi : hooks[i]? = some hook) (hs : (getHookFuncName hook false).2 = true) :
    ∀ (n : Nat) (errs : List GoError) (w : σ) (calls : List Call),
      i < n → n ≤ hooks.length →
      ∃ v, (⟨ProcKind.stop, i, (hook.Stop ctx v).1⟩ : Call) ∈
        (stopLoop ctx hooks n errs w calls).2.2.2 := by
  intro n
  induction n with
  | zero => intro errs w calls hin; omega
  | succ n ih =>
    intro errs w calls hin hn
    have hlt : n < hooks.length := hn
    rcases Nat.eq_or_lt_of_le (Nat.le_of_lt_succ hin) with hin' | hin'
    · subst hin'
      have hg : hooks[i] = hook := by
        have := List.getElem?_eq_getElem hlt
        rw [hi] at this
        exact (Option.some.inj this).symm
      refine ⟨w, ?_⟩
      unfold stopLoop stopBody
      simp only [hctx w, Option.isSome_none, Bool.false_eq_true, if_false, Nat.add_sub_cancel,
        List.getElem?_eq_getElem hlt]
      rw [hg, getHookFuncName_snd_cases hook false, hs]
      simp only
      rcases hst : hook.Stop ctx w with ⟨r, w'⟩
      cases r with
      | some err =>
        simp only
        obtain ⟨_, new, _, _, h3, _⟩ := stopLoop_spec ctx hooks i (errs ++ [err]) w'
          (calls ++ [⟨ProcKind.stop, i, some err⟩]) (Nat.le_of_lt hlt)
        rw [h3]
        simp
      | none =>
        simp only
        obtain ⟨_, new, _, _, h3, _⟩ := stopLoop_spec ctx hooks i errs w'
          (calls ++ [⟨ProcKind.stop, i, none⟩]) (Nat.le_of_lt hlt)
        rw [h3]
        simp
    · unfold stopLoop stopBody
      simp only [hctx w, Option.isSome_none, Bool.false_eq_true, if_false, Nat.add_sub_cancel,
        List.getElem?_eq_getElem hlt]
      cases hb : (getHookFuncName hooks[n] false).2 with
      | false =>
        rw [getHookFuncName_snd_cases hooks[n] false, hb]
        exact ih _ _ _ hin' (Nat.le_of_lt hlt)
      | true =>
        rw [getHookFuncName_snd_cases hooks[n] false, hb]
        simp only
        rcases hst : hooks[n].Stop ctx w with ⟨r, w'⟩
        cases r with
        | some err => exact ih _ _ _ hin' (Nat.le_of_lt hlt)
        | none => exact ih _ _ _ hin' (Nat.le_of_lt hlt)

/-- The method `Stop`, entered with a counter within the registry and a
context that never fires, does what the spec prescribes. -/
theorem Stop_eq_spec (lc : DefaultLifecycle σ) (ctx : Context σ) (w : σ)
    (hk : lc.numStarted ≤ lc.hooks.length) (hctx : NeverFires ctx) :
    (lc.Stop ctx w).calls = (specStopRun (WithCancel ctx) lc.hooks lc.numStarted w).1 ∧
    (lc.Stop ctx w).world = (specStopRun (WithCancel ctx) lc.hooks lc.numStarted w).2 ∧
    (lc.Stop ctx w).outcome = Outcome.returned (Combine
      ((specStopRun (WithCancel ctx) lc.hooks lc.numStarted w).1.filterMap
        (fun c => c.result))) := by
  have h := stopLoop_eq_spec (WithCancel ctx) lc.hooks hctx lc.numStarted [] w [] hk
  simp only [DefaultLifecycle.Stop, h, List.nil_append, and_self]

theorem mem_stop_indices_iff (hooks : List (HookInterface σ)) (k j : Nat) :
    j ∈ (List.range k).reverse.filter (hasStopAt hooks) ↔
      j < k ∧ ∃ h, hooks[j]? = some h ∧ (stopProcOf h).isSome = true := by
  simp only [List.mem_filter, List.mem_reverse, List.mem_range, hasStopAt_iff_stopProcOf]

end Aux

/-! ## The claims about `Start` -/

section StartClaims

variable {σ : Type}

/-- C1: when `Start` is called with `numStarted = 0`, the start procedures of
hooks `0..i-1` return no error (or are absent) and the start procedure of hook
`i` returns the error `E`, then `Start` returns exactly `E` and leaves
`numStarted = i`.  The hooks themselves are left as they were. -/
theorem Start_returns_first_error (lc : DefaultLifecycle σ) (ctx : Context σ) (w : σ)
    (i : Nat) (hook : HookInterface σ) (E : GoError)
    (h0 : lc.numStarted = 0)
    (hi : lc.hooks[i]? = some hook)
    (hok : ∀ (j : Nat) (h : HookInterface σ), j < i → lc.hooks[j]? = some h →
      (h.Start (WithCancel ctx) (worldAfterStarts (WithCancel ctx) (lc.hooks.take j) w)).1 = none)
    (hfail : (hook.Start (WithCancel ctx)
      (worldAfterStarts (WithCancel ctx) (lc.hooks.take i) w)).1 = some E) :
    (lc.Start ctx w).err = some E ∧ (lc.Start ctx w).lc.numStarted = i ∧
      (lc.Start ctx w).lc.hooks = lc.hooks := by
  have h := startLoop_first_failure (WithCancel ctx) lc.hooks i hook E 0 lc.numStarted w []
    hi hok hfail
  refine ⟨h.1, ?_, rfl⟩
  show (startLoop (WithCancel ctx) lc.hooks 0 lc.numStarted w []).2.1 = _
  rw [h.2, h0, Nat.zero_add]

/-- The first scenario of the spec: `A` and `B` start, `C` fails with `E`;
`Start` returns `E` and two hooks count as started. -/
theorem Start_returns_first_error_witness :
    (lcABC.Start background 0).err = some errE ∧ (lcABC.Start background 0).lc.numStarted = 2 ∧
      (lcABC.Start background 0).lc.hooks = lcABC.hooks :=
  Start_returns_first_error lcABC background 0 2 hookC errE rfl rfl
    (by
      intro j h hj hjh
      interval_cases j
      · simp [lcABC] at hjh; subst hjh; rfl
      · simp [lcABC] at hjh; subst hjh; rfl)
    rfl

/-- C2: the hook procedures invoked by one `Start` call are start procedures
only; they belong to the hooks that have a start procedure (a `Hook` struct
whose `OnStart` is set, or any other object), taken in registration order
without a gap and without repetition; every invocation but the last returned
no error; when `Start` returns no error they are all the hooks that have a
start procedure and all returned no error; when `Start` returns an error,
that error is what the last invoked procedure returned, so nothing is invoked
after the first failure.  Procedure by procedure, with what each returned and
the world each left behind, the call is the run that the spec prescribes. -/
theorem Start_invocations (lc : DefaultLifecycle σ) (ctx : Context σ) (w : σ) :
    (∀ c ∈ (lc.Start ctx w).calls, c.kind = ProcKind.start) ∧
    (lc.Start ctx w).calls.map (fun c => c.index) =
      (startOrder lc.hooks).take (lc.Start ctx w).calls.length ∧
    ((lc.Start ctx w).calls.map (fun c => c.index)).Nodup ∧
    (∀ c ∈ (lc.Start ctx w).calls.dropLast, c.result = none) ∧
    ((lc.Start ctx w).err = none →
      (lc.Start ctx w).calls.map (fun c => c.index) = startOrder lc.hooks ∧
        ∀ c ∈ (lc.Start ctx w).calls, c.result = none) ∧
    (∀ e, (lc.Start ctx w).err = some e →
      ∃ i, (lc.Start ctx w).calls.getLast? = some ⟨ProcKind.start, i, some e⟩) ∧
    (∀ i, i ∈ startOrder lc.hooks ↔
      ∃ h, lc.hooks[i]? = some h ∧ (startProcOf h).isSome = true) ∧
    (lc.Start ctx w).calls = (specStartRun (WithCancel ctx) lc.hooks 0 w).1 ∧
    (lc.Start ctx w).err = (specStartRun (WithCancel ctx) lc.hooks 0 w).2.1 ∧
    (lc.Start ctx w).world = (specStartRun (WithCancel ctx) lc.hooks 0 w).2.2 := by
  obtain ⟨new, h1, h2, h3, h4, h5, h6⟩ :=
    startLoop_calls (WithCancel ctx) lc.hooks 0 lc.numStarted w []
  obtain ⟨s1, s2, s3⟩ := startLoop_eq_spec (WithCancel ctx) lc.hooks 0 lc.numStarted w []
  have hc : (lc.Start ctx w).calls = new := by
    show (startLoop (WithCancel ctx) lc.hooks 0 lc.numStarted w []).2.2.2 = new
    rw [h1]; rfl
  have he : (lc.Start ctx w).err = (startLoop (WithCancel ctx) lc.hooks 0 lc.numStarted w []).1 :=
    rfl
  have hs : (lc.Start ctx w).calls = (specStartRun (WithCancel ctx) lc.hooks 0 w).1 := by
    show (startLoop (WithCancel ctx) lc.hooks 0 lc.numStarted w []).2.2.2 = _
    rw [s3]; rfl
  refine ⟨?_, ?_, ?_, ?_, ?_, ?_, mem_startOrder_iff_startProcOf lc.hooks, hs, s1, s2⟩
  · rw [hc]; exact h2
  · rw [hc]; exact h3
  · rw [hc, h3]
    exact (startOrder_nodup lc.hooks).sublist (List.take_sublist _ _)
  · rw [hc]; exact h4
  · rw [hc, he]; exact h5
  · rw [hc, he]; exact h6

/-- The first scenario of the spec: `Start` runs `A.start`, `B.start` and
`C.start`, in that order; the first two return no error, the third returns
`E`, and three procedures have acted on the world. -/
theorem Start_invocations_witness :
    (lcABC.Start background 0).calls =
      [⟨ProcKind.start, 0, none⟩, ⟨ProcKind.start, 1, none⟩, ⟨ProcKind.start, 2, some errE⟩] ∧
    (lcABC.Start background 0).err = some errE ∧
    (lcABC.Start background 0).world = 3 ∧
    (lcAB.Start background 0).calls =
      [⟨ProcKind.start, 0, none⟩, ⟨ProcKind.start, 1, none⟩] ∧
    (lcABC.Start background 0).calls = (specStartRun (WithCancel background) lcABC.hooks 0 0).1 ∧
    (lcAB.Start background 0).calls.map (fun c => c.index) = startOrder lcAB.hooks :=
  ⟨rfl, rfl, rfl, rfl,
    (Start_invocations lcABC background 0).2.2.2.2.2.2.2.1,
    ((Start_invocations lcAB background 0).2.2.2.2.1 rfl).1⟩

/-- C3: when `Start` is called with `numStarted = 0` and every start procedure
returns no error, `Start` returns no error and leaves `numStarted` equal to
the length of the registry. -/
theorem Start_all_succeed (lc : DefaultLifecycle σ) (ctx : Context σ) (w : σ)
    (h0 : lc.numStarted = 0)
    (hok : ∀ (j : Nat) (h : HookInterface σ), lc.hooks[j]? = some h →
      (h.Start (WithCancel ctx) (worldAfterStarts (WithCancel ctx) (lc.hooks.take j) w)).1
        = none) :
    (lc.Start ctx w).err = none ∧ (lc.Start ctx w).lc.numStarted = lc.hooks.length ∧
      (lc.Start ctx w).lc.hooks = lc.hooks := by
  have h := startLoop_all_succeed (WithCancel ctx) lc.hooks 0 lc.numStarted w [] hok
  refine ⟨h.1, ?_, rfl⟩
  show (startLoop (WithCancel ctx) lc.hooks 0 lc.numStarted w []).2.1 = _
  rw [h.2, h0, Nat.zero_add]

/-- Hooks `A` and `B` both start: `Start` returns no error and two hooks count
as started. -/
theorem Start_all_succeed_witness :
    (lcAB.Start background 0).err = none ∧ (lcAB.Start background 0).lc.numStarted = 2 ∧
      (lcAB.Start background 0).lc.hooks = lcAB.hooks :=
  Start_all_succeed lcAB background 0 rfl
    (by
      intro j h hjh
      have hj : j < 2 := by
        have := (List.getElem?_eq_some_iff.1 hjh).1
        simpa [lcAB] using this
      interval_cases j
      · simp [lcAB] at hjh; subst hjh; rfl
      · simp [lcAB] at hjh; subst hjh; rfl)

end StartClaims

/-! ## The claims about `Stop` -/

section StopClaims

variable {σ : Type}

/-- C4: after a `Start` from `numStarted = 0` in which hook `i` is the first to
fail, a `Stop` whose context never fires invokes the stop procedures of the
hooks `i-1, i-2, ..., 0` that have one (a `Hook` struct whose `OnStop` is set,
or any other object), in that order and nothing else (in particular nothing
of hook `i` or of a later hook), returns, and leaves `numStarted = 0`.
Procedure by procedure, with what each returned and the world each left
behind, the call is the run of the stop procedures below `i` that the spec
prescribes. -/
theorem Stop_after_failed_Start (lc : DefaultLifecycle σ) (ctx : Context σ) (w : σ)
    (i : Nat) (hook : HookInterface σ) (E : GoError) (ctx' : Context σ) (w' : σ)
    (h0 : lc.numStarted = 0)
    (hi : lc.hooks[i]? = some hook)
    (hok : ∀ (j : Nat) (h : HookInterface σ), j < i → lc.hooks[j]? = some h →
      (h.Start (WithCancel ctx) (worldAfterStarts (WithCancel ctx) (lc.hooks.take j) w)).1 = none)
    (hfail : (hook.Start (WithCancel ctx)
      (worldAfterStarts (WithCancel ctx) (lc.hooks.take i) w)).1 = some E)
    (hctx : NeverFires ctx') :
    ((lc.Start ctx w).lc.Stop ctx' w').calls.map (fun c => c.index) =
      (List.range i).reverse.filter (hasStopAt lc.hooks) ∧
    (∀ c ∈ ((lc.Start ctx w).lc.Stop ctx' w').calls, c.kind = ProcKind.stop ∧ c.index < i) ∧
    ((lc.Start ctx w).lc.Stop ctx' w').lc.numStarted = 0 ∧
    ((lc.Start ctx w).lc.Stop ctx' w').outcome = Outcome.returned
      (Combine (((lc.Start ctx w).lc.Stop ctx' w').calls.filterMap (fun c => c.result))) ∧
    (∀ j, j ∈ ((lc.Start ctx w).lc.Stop ctx' w').calls.map (fun c => c.index) ↔
      j < i ∧ ∃ h, lc.hooks[j]? = some h ∧ (stopProcOf h).isSome = true) ∧
    ((lc.Start ctx w).lc.Stop ctx' w').calls =
      (specStopRun (WithCancel ctx') lc.hooks i w').1 ∧
    ((lc.Start ctx w).lc.Stop ctx' w').world =
      (specStopRun (WithCancel ctx') lc.hooks i w').2 := by
  have hn : (lc.Start ctx w).lc.numStarted = i := by
    show (startLoop (WithCancel ctx) lc.hooks 0 lc.numStarted w []).2.1 = _
    rw [(startLoop_first_failure (WithCancel ctx) lc.hooks i hook E 0 lc.numStarted w []
      hi hok hfail).2, h0, Nat.zero_add]
  have hh : (lc.Start ctx w).lc.hooks = lc.hooks := rfl
  have hlt : i < lc.hooks.length := (List.getElem?_eq_some_iff.1 hi).1
  have hk : (lc.Start ctx w).lc.numStarted ≤ (lc.Start ctx w).lc.hooks.length := by
    rw [hn, hh]; exact Nat.le_of_lt hlt
  obtain ⟨h1, h2, h3, h4⟩ := Stop_never_fires (lc.Start ctx w).lc ctx' w' hk hctx
  obtain ⟨e1, e2, _⟩ := Stop_eq_spec (lc.Start ctx w).lc ctx' w' hk hctx
  rw [hn, hh] at h3 e1 e2
  refine ⟨h3, ?_, h1, h4, ?_, e1, e2⟩
  · intro c hc
    refine ⟨h2 c hc, ?_⟩
    have hmem : c.index ∈ (List.range i).reverse.filter (hasStopAt lc.hooks) := by
      rw [← h3]
      exact List.mem_map_of_mem _ hc
    have := (List.mem_filter.1 hmem).1
    simpa using this
  · intro j
    rw [h3]
    exact mem_stop_indices_iff _ _ _

/-- The first scenario of the spec, continued: after `C` failed to start, `Stop`
runs `B.stop`, then `A.stop`, and nothing else; both return no error, `Stop`
returns no error, and no hook counts as started any more. -/
theorem Stop_after_failed_Start_witness :
    ((lcABC.Start background 0).lc.Stop background 3).calls =
      [⟨ProcKind.stop, 1, none⟩, ⟨ProcKind.stop, 0, none⟩] ∧
    ((lcABC.Start background 0).lc.Stop background 3).world = 5 ∧
    ((lcABC.Start background 0).lc.Stop background 3).outcome = Outcome.returned none ∧
    ((lcABC.Start background 0).lc.Stop background 3).lc.numStarted = 0 ∧
    ((lcABC.Start background 0).lc.Stop background 3).calls =
      (specStopRun (WithCancel background) lcABC.hooks 2 3).1 ∧
    (∀ c ∈ ((lcABC.Start background 0).lc.Stop background 3).calls,
      c.kind = ProcKind.stop ∧ c.index < 2) :=
  have h := Stop_after_failed_Start lcABC background 0 2 hookC errE background 3 rfl rfl
    (by
      intro j h hj hjh
      interval_cases j
      · simp [lcABC] at hjh; subst hjh; rfl
      · simp [lcABC] at hjh; subst hjh; rfl)
    rfl (fun _ => rfl)
  ⟨rfl, rfl, rfl, h.2.2.1, h.2.2.2.2.2.1, h.2.1⟩

/-- C5: in a `Stop` entered with `numStarted = k` within the registry and a
context that never fires, the stop procedures of all hooks `k-1, ..., 0` that
have one (a `Hook` struct whose `OnStop` is set, or any other object) are
invoked whatever the earlier ones returned; `Stop` returns no error exactly
when none of them returned an error; otherwise it returns the combination of
the errors they returned, each once, in the order of invocation, and nothing
else.  The procedures run, what each returned and the world each left behind
are those of the run that the spec prescribes, and the returned error combines
the errors of that run. -/
theorem Stop_collects_errors (lc : DefaultLifecycle σ) (ctx : Context σ) (w : σ)
    (hk : lc.numStarted ≤ lc.hooks.length) (hctx : NeverFires ctx) :
    (lc.Stop ctx w).calls.map (fun c => c.index) =
      (List.range lc.numStarted).reverse.filter (hasStopAt lc.hooks) ∧
    ((lc.Stop ctx w).outcome = Outcome.returned none ↔
      ∀ c ∈ (lc.Stop ctx w).calls, c.result = none) ∧
    (∀ e, (lc.Stop ctx w).outcome = Outcome.returned (some e) →
      e = GoError.multi ((lc.Stop ctx w).calls.filterMap (fun c => c.result))) ∧
    (∃ err, (lc.Stop ctx w).outcome = Outcome.returned err ∧
      errorsOf err = (lc.Stop ctx w).calls.filterMap (fun c => c.result)) ∧
    (∀ j, j ∈ (lc.Stop ctx w).calls.map (fun c => c.index) ↔
      j < lc.numStarted ∧ ∃ h, lc.hooks[j]? = some h ∧ (stopProcOf h).isSome = true) ∧
    (lc.Stop ctx w).calls = (specStopRun (WithCancel ctx) lc.hooks lc.numStarted w).1 ∧
    (lc.Stop ctx w).world = (specStopRun (WithCancel ctx) lc.hooks lc.numStarted w).2 ∧
    (lc.Stop ctx w).outcome = Outcome.returned (Combine
      ((specStopRun (WithCancel ctx) lc.hooks lc.numStarted w).1.filterMap
        (fun c => c.result))) := by
  obtain ⟨_, _, h3, h4⟩ := Stop_never_fires lc ctx w hk hctx
  obtain ⟨e1, e2, e3⟩ := Stop_eq_spec lc ctx w hk hctx
  refine ⟨h3, ?_, ?_, ?_, ?_, e1, e2, e3⟩
  · rw [h4]
    simp only [Outcome.returned.injEq, Combine_eq_none_iff, List.filterMap_eq_nil_iff]
  · intro e he
    rw [h4] at he
    cases hl : (lc.Stop ctx w).calls.filterMap (fun c => c.result) with
    | nil => rw [hl] at he; simp [Combine] at he
    | cons a l => rw [hl] at he; simp [Combine] at he; exact he.symm
  · refine ⟨_, h4, ?_⟩
    cases hl : (lc.Stop ctx w).calls.filterMap (fun c => c.result) with
    | nil => rfl
    | cons a l => rfl
  · intro j
    rw [h3]
    exact mem_stop_indices_iff _ _ _

/-- The second scenario of the spec: `B.stop` runs first and returns `F`,
`A.stop` runs all the same and returns no error; `Stop` returns the combined
error that holds exactly `F`. -/
theorem Stop_collects_errors_witness :
    (lcABF.Stop background 0).calls =
      [⟨ProcKind.stop, 1, some errF⟩, ⟨ProcKind.stop, 0, none⟩] ∧
    (lcABF.Stop background 0).world = 2 ∧
    (lcABF.Stop background 0).outcome = Outcome.returned (some (GoError.multi [errF])) ∧
    (lcABF.Stop background 0).outcome = Outcome.returned (Combine
      ((specStopRun (WithCancel background) lcABF.hooks lcABF.numStarted 0).1.filterMap
        (fun c => c.result))) ∧
    ((lcABF.Stop background 0).outcome = Outcome.returned none ↔
      ∀ c ∈ (lcABF.Stop background 0).calls, c.result = none) :=
  have h := Stop_collects_errors lcABF background 0 (Nat.le_refl 2) (fun _ => rfl)
  ⟨rfl, rfl, rfl, h.2.2.2.2.2.2.2, h.2.1⟩

/-- C6, refuted as stated: with one hook registered and nothing started, a
`Stop` whose context is already cancelled returns no error, not the error of
the context. -/
theorem Stop_expired_nothing_started :
    expired.Err 0 = some errCanceled ∧
    (((DefaultLifecycle.new Nat).Append hookA).Stop expired 0).outcome =
      Outcome.returned none ∧
    (((DefaultLifecycle.new Nat).Append hookA).Stop expired 0).outcome ≠
      Outcome.returned (expired.Err 0) := by
  refine ⟨rfl, rfl, ?_⟩
  intro h
  cases h

/-- C6, amended: a `Stop` whose context has already fired invokes no hook
procedure and leaves the lifecycle and the world as they are; it returns the
error of the context when `numStarted > 0`, and no error when
`numStarted = 0`. -/
theorem Stop_expired_context (lc : DefaultLifecycle σ) (ctx : Context σ) (w : σ) (e : GoError)
    (he : ctx.Err w = some e) :
    (lc.Stop ctx w).calls = [] ∧ (lc.Stop ctx w).lc = lc ∧ (lc.Stop ctx w).world = w ∧
    (0 < lc.numStarted → (lc.Stop ctx w).outcome = Outcome.returned (some e)) ∧
    (lc.numStarted = 0 → (lc.Stop ctx w).outcome = Outcome.returned none) := by
  obtain ⟨hooks, n⟩ := lc
  cases n with
  | zero => simp [DefaultLifecycle.Stop, stopLoop, Combine]
  | succ n => simp [DefaultLifecycle.Stop, stopLoop, stopBody, WithCancel, he]

/-- One started hook and a cancelled context: `Stop` invokes nothing and
returns `context.Canceled`. -/
theorem Stop_expired_context_witness :
    (lcA1.Stop expired 0).calls = [] ∧ (lcA1.Stop expired 0).lc = lcA1 ∧
    (lcA1.Stop expired 0).world = 0 ∧
    (0 < lcA1.numStarted → (lcA1.Stop expired 0).outcome = Outcome.returned (some errCanceled)) ∧
    (lcA1.numStarted = 0 → (lcA1.Stop expired 0).outcome = Outcome.returned none) :=
  Stop_expired_context lcA1 expired 0 errCanceled rfl

/-- C7, refuted as stated: when the first `Stop` was abandoned because its
context had fired, a second `Stop` with a live context invokes the stop
procedure of hook 0 and changes `numStarted`, and a second `Stop` with the
same fired context returns an error. -/
theorem second_Stop_after_abandoned_Stop :
    ((lcA1.Stop expired 0).lc.Stop background (lcA1.Stop expired 0).world).calls.map
      (fun c => c.index) = [0] ∧
    ((lcA1.Stop expired 0).lc.Stop background (lcA1.Stop expired 0).world).lc.numStarted ≠
      (lcA1.Stop expired 0).lc.numStarted ∧
    ((lcA1.Stop expired 0).lc.Stop expired (lcA1.Stop expired 0).world).outcome =
      Outcome.returned (some errCanceled) := by
  refine ⟨rfl, ?_, rfl⟩
  decide

/-- C7, amended: when the first `Stop` ran its loop to the end, that is, left
`numStarted = 0`, a second `Stop` with no `Start` in between invokes no hook
procedure, returns no error and leaves the lifecycle, `numStarted` included,
and the world as they are, whatever its context. -/
theorem second_Stop_is_noop (lc : DefaultLifecycle σ) (ctx1 ctx2 : Context σ) (w w2 : σ)
    (h : (lc.Stop ctx1 w).lc.numStarted = 0) :
    ((lc.Stop ctx1 w).lc.Stop ctx2 w2).calls = [] ∧
    ((lc.Stop ctx1 w).lc.Stop ctx2 w2).outcome = Outcome.returned none ∧
    ((lc.Stop ctx1 w).lc.Stop ctx2 w2).lc = (lc.Stop ctx1 w).lc ∧
    ((lc.Stop ctx1 w).lc.Stop ctx2 w2).world = w2 := by
  generalize (lc.Stop ctx1 w).lc = lc1 at h ⊢
  obtain ⟨hooks, n⟩ := lc1
  simp only at h
  subst h
  simp [DefaultLifecycle.Stop, stopLoop, Combine]

/-- After a `Stop` of hooks `A` and `B` that ran to the end, a second `Stop`,
even with a cancelled context, does nothing. -/
theorem second_Stop_is_noop_witness :
    ((lcABF.Stop background 0).lc.Stop expired 2).calls = [] ∧
    ((lcABF.Stop background 0).lc.Stop expired 2).outcome = Outcome.returned none ∧
    ((lcABF.Stop background 0).lc.Stop expired 2).lc = (lcABF.Stop background 0).lc ∧
    ((lcABF.Stop background 0).lc.Stop expired 2).world = 2 :=
  second_Stop_is_noop lcABF background expired 0 2 rfl

/-- C8: when the loop of a `Stop` call comes to its head with `numStarted = m > 0`,
errors `errs` recorded so far and invocations `calls` made so far, and the
context is found fired there with error `e`, then `Stop` returns `e` alone
(`errs` does not enter the result), has made the invocations `calls` and no
other, and leaves `numStarted = m`. -/
theorem Stop_abandoned_at_check (lc : DefaultLifecycle σ) (ctx : Context σ) (w : σ)
    (m : Nat) (errs : List GoError) (w' : σ) (calls : List Call) (e : GoError)
    (hreach : StopReaches (WithCancel ctx) lc.hooks ⟨lc.numStarted, [], w, []⟩
      ⟨m, errs, w', calls⟩)
    (hm : 0 < m) (he : ctx.Err w' = some e) :
    (lc.Stop ctx w).outcome = Outcome.returned (some e) ∧
    (lc.Stop ctx w).calls = calls ∧
    (lc.Stop ctx w).lc.numStarted = m ∧
    (lc.Stop ctx w).lc.hooks = lc.hooks ∧
    (lc.Stop ctx w).world = w' := by
  have h1 := stopLoop_of_reaches (WithCancel ctx) lc.hooks _ _ hreach
  have h2 := stopLoop_fired (WithCancel ctx) lc.hooks m errs w' calls e hm he
  simp only at h1
  rw [h2] at h1
  simp [DefaultLifecycle.Stop, h1]

/-- Hooks `A` and `B` started, `B`'s stop fails with `F` and the deadline passes
meanwhile: `Stop` returns the deadline error alone, `A`'s stop is not invoked
and one hook still counts as started. -/
theorem Stop_abandoned_at_check_witness :
    (lcABF.Stop (deadline 1) 0).outcome = Outcome.returned (some errDeadline) ∧
    (lcABF.Stop (deadline 1) 0).calls = [⟨ProcKind.stop, 1, some errF⟩] ∧
    (lcABF.Stop (deadline 1) 0).lc.numStarted = 1 ∧
    (lcABF.Stop (deadline 1) 0).lc.hooks = lcABF.hooks ∧
    (lcABF.Stop (deadline 1) 0).world = 1 :=
  Stop_abandoned_at_check lcABF (deadline 1) 0 1 [errF] 1 [⟨ProcKind.stop, 1, some errF⟩]
    errDeadline
    (StopReaches.pass 1 [] 0 [] [errF] 1 [⟨ProcKind.stop, 1, some errF⟩] _ rfl
      (StopReaches.here _))
    (by decide) rfl

/-- C9: for a lifecycle with `numStarted = k` within the registry, a first
`Stop` (abandoned at whatever value `m` of `numStarted` its context fires)
followed by a `Stop` whose context never fires invokes the stop procedures of
the hooks from `k-1` down to `m`, then those from `m-1` down to `0`; together
that is the sequence invoked by one uninterrupted `Stop` from `numStarted = k`,
without repetition, and `numStarted` ends at `0`. -/
theorem Stop_resumes (lc : DefaultLifecycle σ) (ctx1 ctx2 ctx3 : Context σ) (w w2 w3 : σ)
    (hk : lc.numStarted ≤ lc.hooks.length)
    (h2 : NeverFires ctx2) (h3 : NeverFires ctx3) :
    (lc.Stop ctx1 w).calls.map (fun c => c.index) =
      stopWindow lc.hooks (lc.Stop ctx1 w).lc.numStarted lc.numStarted ∧
    ((lc.Stop ctx1 w).lc.Stop ctx2 w2).calls.map (fun c => c.index) =
      stopWindow lc.hooks 0 (lc.Stop ctx1 w).lc.numStarted ∧
    ((lc.Stop ctx1 w).calls ++ ((lc.Stop ctx1 w).lc.Stop ctx2 w2).calls).map (fun c => c.index) =
      (lc.Stop ctx3 w3).calls.map (fun c => c.index) ∧
    (lc.Stop ctx3 w3).calls.map (fun c => c.index) =
      (List.range lc.numStarted).reverse.filter (hasStopAt lc.hooks) ∧
    (((lc.Stop ctx1 w).calls ++ ((lc.Stop ctx1 w).lc.Stop ctx2 w2).calls).map
      (fun c => c.index)).Nodup ∧
    (∀ c ∈ (lc.Stop ctx1 w).calls ++ ((lc.Stop ctx1 w).lc.Stop ctx2 w2).calls,
      c.kind = ProcKind.stop) ∧
    ((lc.Stop ctx1 w).lc.Stop ctx2 w2).lc.numStarted = 0 := by
  obtain ⟨a1, a2, a3, _, _⟩ := Stop_spec lc ctx1 w hk
  have hh : (lc.Stop ctx1 w).lc.hooks = lc.hooks := rfl
  have hk1 : (lc.Stop ctx1 w).lc.numStarted ≤ (lc.Stop ctx1 w).lc.hooks.length := by
    rw [hh]; exact Nat.le_trans a1 hk
  obtain ⟨b1, b2, b3, _⟩ := Stop_never_fires (lc.Stop ctx1 w).lc ctx2 w2 hk1 h2
  obtain ⟨_, _, c3, _⟩ := Stop_never_fires lc ctx3 w3 hk h3
  rw [hh, ← stopWindow_zero] at b3
  have hsum : ((lc.Stop ctx1 w).calls ++ ((lc.Stop ctx1 w).lc.Stop ctx2 w2).calls).map
      (fun c => c.index) = stopWindow lc.hooks 0 lc.numStarted := by
    rw [List.map_append, a3, b3]
    exact stopWindow_append lc.hooks _ _ a1
  refine ⟨a3, b3, ?_, c3, ?_, ?_, b1⟩
  · rw [hsum, c3, stopWindow_zero]
  · rw [hsum]
    exact stopWindow_nodup _ _ _
  · intro c hc
    rcases List.mem_append.1 hc with hc | hc
    · exact a2 c hc
    · exact b2 c hc

/-- Hooks `A` and `B` started: a first `Stop` is abandoned after `B`'s stop, a
second one invokes `A`'s stop; together they do what one `Stop` does. -/
theorem Stop_resumes_witness :
    (lcABF.Stop (deadline 1) 0).calls.map (fun c => c.index) =
      stopWindow lcABF.hooks (lcABF.Stop (deadline 1) 0).lc.numStarted lcABF.numStarted ∧
    ((lcABF.Stop (deadline 1) 0).lc.Stop background 1).calls.map (fun c => c.index) =
      stopWindow lcABF.hooks 0 (lcABF.Stop (deadline 1) 0).lc.numStarted ∧
    ((lcABF.Stop (deadline 1) 0).calls ++
      ((lcABF.Stop (deadline 1) 0).lc.Stop background 1).calls).map (fun c => c.index) =
      (lcABF.Stop background 0).calls.map (fun c => c.index) ∧
    (lcABF.Stop background 0).calls.map (fun c => c.index) =
      (List.range lcABF.numStarted).reverse.filter (hasStopAt lcABF.hooks) ∧
    (((lcABF.Stop (deadline 1) 0).calls ++
      ((lcABF.Stop (deadline 1) 0).lc.Stop background 1).calls).map (fun c => c.index)).Nodup ∧
    (∀ c ∈ (lcABF.Stop (deadline 1) 0).calls ++
      ((lcABF.Stop (deadline 1) 0).lc.Stop background 1).calls, c.kind = ProcKind.stop) ∧
    ((lcABF.Stop (deadline 1) 0).lc.Stop background 1).lc.numStarted = 0 :=
  Stop_resumes lcABF (deadline 1) background background 0 1 0 (Nat.le_refl 2)
    (fun _ => rfl) (fun _ => rfl)

end StopClaims

/-! ## The claim about the counter -/

section CounterClaims

variable {σ : Type}

/-- C10, refuted as stated: one hook appended and `Start` called twice leaves
`numStarted = 2` with a registry of length 1. -/
theorem double_Start_exceeds_registry :
    (runOps [Op.append hookA, Op.start background, Op.start background]
      (DefaultLifecycle.new Nat, 0)).1.numStarted = 2 ∧
    (runOps [Op.append hookA, Op.start background, Op.start background]
      (DefaultLifecycle.new Nat, 0)).1.hooks.length = 1 ∧
    ¬ ((runOps [Op.append hookA, Op.start background, Op.start background]
        (DefaultLifecycle.new Nat, 0)).1.numStarted ≤
      (runOps [Op.append hookA, Op.start background, Op.start background]
        (DefaultLifecycle.new Nat, 0)).1.hooks.length) := by
  refine ⟨rfl, rfl, ?_⟩
  decide

/-- C10, amended: in every state reached from a newly constructed lifecycle by
a finite sequence of `Append`, `Start` and `Stop` calls, interleaved with any
changes of the world, in which every `Start` is issued while `numStarted = 0`,
`0 <= numStarted <= length(registry)` holds, whatever the hooks return and
whatever the contexts do. -/
theorem numStarted_within_registry (ops : List (Op σ)) (w : σ)
    (h : StartsOnlyAtZero ops (DefaultLifecycle.new σ, w)) :
    0 ≤ (runOps ops (DefaultLifecycle.new σ, w)).1.numStarted ∧
    (runOps ops (DefaultLifecycle.new σ, w)).1.numStarted ≤
      (runOps ops (DefaultLifecycle.new σ, w)).1.hooks.length :=
  ⟨Nat.zero_le _, runOps_invariant ops (DefaultLifecycle.new σ, w) (Nat.zero_le _) h⟩

/-- Two hooks appended, started, stopped and started again, each `Start` being
issued with nothing started. -/
theorem numStarted_within_registry_witness :
    0 ≤ (runOps [Op.append hookA, Op.append hookBF, Op.start background, Op.stop background,
      Op.start background] (DefaultLifecycle.new Nat, 0)).1.numStarted ∧
    (runOps [Op.append hookA, Op.append hookBF, Op.start background, Op.stop background,
      Op.start background] (DefaultLifecycle.new Nat, 0)).1.numStarted ≤
    (runOps [Op.append hookA, Op.append hookBF, Op.start background, Op.stop background,
      Op.start background] (DefaultLifecycle.new Nat, 0)).1.hooks.length :=
  numStarted_within_registry
    [Op.append hookA, Op.append hookBF, Op.start background, Op.stop background,
      Op.start background] 0 ⟨rfl, rfl, trivial⟩

end CounterClaims

/-! ## The claims about `Append`, the context of `Start` and the bounds of `Stop` -/

section FurtherClaims

variable {σ : Type}

/-- C11: `Append` is total (it has no error result), yields the old registry
followed by the new hook, so that every existing hook keeps its position and
the new hook sits at the end, and leaves `numStarted` as it is; the content of
the hook, which may lack both procedures, plays no role. -/
theorem Append_extends_registry (lc : DefaultLifecycle σ) (h : HookInterface σ) :
    (lc.Append h).hooks = lc.hooks ++ [h] ∧
    (lc.Append h).hooks.length = lc.hooks.length + 1 ∧
    (∀ i, i < lc.hooks.length → (lc.Append h).hooks[i]? = lc.hooks[i]?) ∧
    (lc.Append h).hooks[lc.hooks.length]? = some h ∧
    (lc.Append h).numStarted = lc.numStarted := by
  refine ⟨rfl, by simp [DefaultLifecycle.Append], ?_, by simp [DefaultLifecycle.Append], rfl⟩
  intro i hi
  simp [DefaultLifecycle.Append, List.getElem?_append_left hi]

/-- C17: `Start` never looks at the context itself.  When the start procedures
ignore the context they are given and return no error, `Start` called with any
context, an already cancelled or expired one included, invokes every start
procedure in registration order, returns no error, counts every hook as
started, and gives in every respect the result it gives with any other
context, a live one included. -/
theorem Start_does_not_poll_context (lc : DefaultLifecycle σ) (ctx other : Context σ) (w : σ)
    (h0 : lc.numStarted = 0)
    (hign : ∀ h ∈ lc.hooks, ∀ (c1 c2 : HookContext σ) (w : σ), h.Start c1 w = h.Start c2 w)
    (hok : ∀ (j : Nat) (h : HookInterface σ), lc.hooks[j]? = some h →
      (h.Start (WithCancel ctx) (worldAfterStarts (WithCancel ctx) (lc.hooks.take j) w)).1
        = none) :
    (lc.Start ctx w).err = none ∧
    (lc.Start ctx w).lc.numStarted = lc.hooks.length ∧
    (lc.Start ctx w).calls.map (fun c => c.index) = startOrder lc.hooks ∧
    (∀ c ∈ (lc.Start ctx w).calls, c.kind = ProcKind.start ∧ c.result = none) ∧
    lc.Start ctx w = lc.Start other w := by
  have h := startLoop_all_succeed (WithCancel ctx) lc.hooks 0 lc.numStarted w [] hok
  obtain ⟨new, c1, c2, _, _, c5, _⟩ :=
    startLoop_calls (WithCancel ctx) lc.hooks 0 lc.numStarted w []
  have hc : (lc.Start ctx w).calls = new := by
    show (startLoop (WithCancel ctx) lc.hooks 0 lc.numStarted w []).2.2.2 = new
    rw [c1]; rfl
  have c5' := c5 h.1
  refine ⟨h.1, ?_, ?_, ?_, ?_⟩
  · show (startLoop (WithCancel ctx) lc.hooks 0 lc.numStarted w []).2.1 = _
    rw [h.2, h0, Nat.zero_add]
  · rw [hc]; exact c5'.1
  · rw [hc]; exact fun c hcm => ⟨c2 c hcm, c5'.2 c hcm⟩
  · have := startLoop_congr_ctx (WithCancel ctx) (WithCancel other) lc.hooks 0 lc.numStarted w []
      (fun h hh w => hign h hh _ _ w)
    simp only [DefaultLifecycle.Start, this]

/-- Hooks `A` and `B` started with a context that is already cancelled: both
start procedures run, as with `context.Background()`. -/
theorem Start_does_not_poll_context_witness :
    (lcAB.Start expired 0).err = none ∧
    (lcAB.Start expired 0).lc.numStarted = lcAB.hooks.length ∧
    (lcAB.Start expired 0).calls.map (fun c => c.index) = startOrder lcAB.hooks ∧
    (∀ c ∈ (lcAB.Start expired 0).calls, c.kind = ProcKind.start ∧ c.result = none) ∧
    lcAB.Start expired 0 = lcAB.Start background 0 :=
  Start_does_not_poll_context lcAB expired background 0 rfl
    (by
      intro h hh
      simp only [lcAB, List.mem_cons, List.mem_singleton, List.not_mem_nil, or_false] at hh
      rcases hh with rfl | rfl
      · intro c1 c2 w; rfl
      · intro c1 c2 w; rfl)
    (by
      intro j h hjh
      have hj : j < 2 := by
        have := (List.getElem?_eq_some_iff.1 hjh).1
        simpa [lcAB] using this
      interval_cases j
      · simp [lcAB] at hjh; subst hjh; rfl
      · simp [lcAB] at hjh; subst hjh; rfl)

/-- C19: when `Stop` is entered with `numStarted` within the registry, it does
not panic; whenever its loop is at its head with `numStarted > 0`, the index
`numStarted - 1` lies within the snapshot; and the body of the loop is entered
at most `numStarted` times before `Stop` returns. -/
theorem Stop_in_bounds (lc : DefaultLifecycle σ) (ctx : Context σ) (w : σ)
    (hk : lc.numStarted ≤ lc.hooks.length) :
    (∃ err, (lc.Stop ctx w).outcome = Outcome.returned err) ∧
    (∀ s, StopReaches (WithCancel ctx) lc.hooks ⟨lc.numStarted, [], w, []⟩ s →
      0 < s.numStarted → ∃ hook, lc.hooks[s.numStarted - 1]? = some hook) ∧
    stopIterations (WithCancel ctx) lc.hooks lc.numStarted [] w [] ≤ lc.numStarted := by
  refine ⟨?_, ?_, stopIterations_le _ _ _ _ _ _⟩
  · obtain ⟨_, _, _, h4, h5⟩ := Stop_spec lc ctx w hk
    rcases Nat.eq_zero_or_pos (lc.Stop ctx w).lc.numStarted with h | h
    · exact ⟨_, h4 h⟩
    · obtain ⟨e, _, he⟩ := h5 h
      exact ⟨_, he⟩
  · intro s hs hpos
    have hle := stopReaches_numStarted_le _ _ _ _ hs
    simp only at hle
    have hlt : s.numStarted - 1 < lc.hooks.length := by omega
    exact ⟨lc.hooks[s.numStarted - 1], List.getElem?_eq_getElem hlt⟩

/-- Hooks `A` and `B` started: `Stop` returns without a panic after at most two
passes. -/
theorem Stop_in_bounds_witness :
    (∃ err, (lcABF.Stop background 0).outcome = Outcome.returned err) ∧
    (∀ s, StopReaches (WithCancel background) lcABF.hooks ⟨lcABF.numStarted, [], 0, []⟩ s →
      0 < s.numStarted → ∃ hook, lcABF.hooks[s.numStarted - 1]? = some hook) ∧
    stopIterations (WithCancel background) lcABF.hooks lcABF.numStarted [] 0 [] ≤
      lcABF.numStarted :=
  Stop_in_bounds lcABF background 0 (Nat.le_refl 2)

/-- C20: `Start` adds to `numStarted` and never resets it.  Entered with
`numStarted = s` it leaves `numStarted = s + j`, where `j` is the length of
the snapshot when it returns no error and otherwise the position of the hook
whose start procedure returned the error, that is, the number of hooks passed
before it.  In particular a second `Start` right after a `Start` from zero,
both without error, leaves `numStarted` at twice the length of the registry. -/
theorem Start_adds_to_numStarted (lc : DefaultLifecycle σ) (ctx : Context σ) (w : σ) :
    (∃ j, j ≤ lc.hooks.length ∧
      (lc.Start ctx w).lc.numStarted = lc.numStarted + j ∧
      ((lc.Start ctx w).err = none → j = lc.hooks.length) ∧
      (∀ e, (lc.Start ctx w).err = some e → j < lc.hooks.length ∧
        (lc.Start ctx w).calls.getLast? = some ⟨ProcKind.start, j, some e⟩)) ∧
    (∀ (ctx2 : Context σ) (w2 : σ), lc.numStarted = 0 → (lc.Start ctx w).err = none →
      ((lc.Start ctx w).lc.Start ctx2 w2).err = none →
      ((lc.Start ctx w).lc.Start ctx2 w2).lc.numStarted = 2 * lc.hooks.length) := by
  have key : ∀ (l : DefaultLifecycle σ) (c : Context σ) (v : σ),
      ∃ j, j ≤ l.hooks.length ∧
        (l.Start c v).lc.numStarted = l.numStarted + j ∧
        ((l.Start c v).err = none → j = l.hooks.length) ∧
        (∀ e, (l.Start c v).err = some e → j < l.hooks.length ∧
          (l.Start c v).calls.getLast? = some ⟨ProcKind.start, j, some e⟩) := by
    intro l c v
    obtain ⟨j, h1, h2, h3, h4⟩ := startLoop_count (WithCancel c) l.hooks 0 l.numStarted v []
    refine ⟨j, h1, h2, h3, ?_⟩
    intro e he
    have := h4 e he
    rw [Nat.zero_add] at this
    exact this
  refine ⟨key lc ctx w, ?_⟩
  intro ctx2 w2 h0 he1 he2
  obtain ⟨j1, _, a2, a3, _⟩ := key lc ctx w
  obtain ⟨j2, _, b2, b3, _⟩ := key (lc.Start ctx w).lc ctx2 w2
  have hh : (lc.Start ctx w).lc.hooks = lc.hooks := rfl
  rw [b2, a2, h0, a3 he1, b3 he2, hh]
  omega

/-- Hooks `A` and `B` started twice in a row: four hooks count as started in a
registry of two. -/
theorem Start_adds_to_numStarted_witness :
    ((lcAB.Start background 0).lc.Start background 2).lc.numStarted = 2 * lcAB.hooks.length :=
  (Start_adds_to_numStarted lcAB background 0).2 background 2 rfl rfl rfl

end FurtherClaims

/-! ## The claims about the window of `Stop` and about one-sided hooks -/

section WindowClaims

variable {σ : Type}

/-- C13: a `Stop` entered with `numStarted = k` within the registry and left
with `numStarted = m` has `m <= k`; the procedures it invoked are stop
procedures, those of exactly the hooks at the indices from `m` to `k-1` that
have one, each once, in descending order of index; and for every `j` from `k`
down to `m` its loop came to its head with `numStarted = j` having dealt with
exactly the hooks at indices `j` to `k-1`, so that the counter went down by
one for each of them, whatever its stop procedure returned and whether or not
it had one. -/
theorem Stop_window (lc : DefaultLifecycle σ) (ctx : Context σ) (w : σ)
    (hk : lc.numStarted ≤ lc.hooks.length) :
    (lc.Stop ctx w).lc.numStarted ≤ lc.numStarted ∧
    (∀ c ∈ (lc.Stop ctx w).calls, c.kind = ProcKind.stop) ∧
    (∀ i, i ∈ (lc.Stop ctx w).calls.map (fun c => c.index) ↔
      (lc.Stop ctx w).lc.numStarted ≤ i ∧ i < lc.numStarted ∧ hasStopAt lc.hooks i = true) ∧
    ((lc.Stop ctx w).calls.map (fun c => c.index)).Pairwise (fun a b => b < a) ∧
    (∀ j, (lc.Stop ctx w).lc.numStarted ≤ j → j ≤ lc.numStarted →
      ∃ s : StopState σ, s.numStarted = j ∧
        StopReaches (WithCancel ctx) lc.hooks ⟨lc.numStarted, [], w, []⟩ s ∧
        ∀ i, i ∈ s.calls.map (fun c => c.index) ↔
          j ≤ i ∧ i < lc.numStarted ∧ hasStopAt lc.hooks i = true) := by
  obtain ⟨h1, h2, h3, _, _⟩ := Stop_spec lc ctx w hk
  refine ⟨h1, h2, ?_, ?_, ?_⟩
  · intro i
    rw [h3]
    exact mem_stopWindow_iff _ _ _ _
  · rw [h3]
    exact stopWindow_descending _ _ _
  · intro j hmj hjk
    obtain ⟨s, hs1, hs2, new, hs3, hs4⟩ :=
      stopLoop_visits (WithCancel ctx) lc.hooks lc.numStarted [] w [] hk j hmj hjk
    refine ⟨s, hs1, hs2, ?_⟩
    intro i
    rw [hs3, List.nil_append, hs4]
    exact mem_stopWindow_iff _ _ _ _

/-- Hooks `A` and `B` started, the deadline passing during `B`'s stop: `Stop`
deals with index 1 only and leaves one hook started. -/
theorem Stop_window_witness :
    (lcABF.Stop (deadline 1) 0).lc.numStarted ≤ lcABF.numStarted ∧
    (∀ c ∈ (lcABF.Stop (deadline 1) 0).calls, c.kind = ProcKind.stop) ∧
    (∀ i, i ∈ (lcABF.Stop (deadline 1) 0).calls.map (fun c => c.index) ↔
      (lcABF.Stop (deadline 1) 0).lc.numStarted ≤ i ∧ i < lcABF.numStarted ∧
        hasStopAt lcABF.hooks i = true) ∧
    ((lcABF.Stop (deadline 1) 0).calls.map (fun c => c.index)).Pairwise (fun a b => b < a) ∧
    (∀ j, (lcABF.Stop (deadline 1) 0).lc.numStarted ≤ j → j ≤ lcABF.numStarted →
      ∃ s : StopState Nat, s.numStarted = j ∧
        StopReaches (WithCancel (deadline 1)) lcABF.hooks ⟨lcABF.numStarted, [], 0, []⟩ s ∧
        ∀ i, i ∈ s.calls.map (fun c => c.index) ↔
          j ≤ i ∧ i < lcABF.numStarted ∧ hasStopAt lcABF.hooks i = true) :=
  Stop_window lcABF (deadline 1) 0 (Nat.le_refl 2)

/-- C14, refuted as stated: a hook with a start procedure only that is given
as a pointer to a `Hook` is not the struct `Hook` for `getHookFuncName`, so
`Stop` does not skip it: it invokes its `Stop` method, which returns no
error, whereas the same hook given as a struct value is skipped. -/
theorem pointer_hook_not_skipped :
    startOnly.OnStop = none ∧
    ((lcPtr.Start background 0).lc.Stop background 1).calls = [⟨ProcKind.stop, 0, none⟩] ∧
    0 ∈ ((lcPtr.Start background 0).lc.Stop background 1).calls.map (fun c => c.index) ∧
    ((DefaultLifecycle.Start { hooks := [HookInterface.hook startOnly], numStarted := 0 }
      background 0).lc.Stop background 1).calls = [] :=
  ⟨rfl, rfl, by decide, rfl⟩

/-- C14, amended: `Hook.Start` and `Hook.Stop` run the callback when it is set
and otherwise return no error and do nothing.  Let `Start`, entered with
`numStarted = 0`, get to hook `i` (the start procedures before it return no
error), and let a `Stop` whose context never fires follow.  If the hook has a
start procedure, `Start` runs it in the world left by the hooks before it and
records what it returned; if it has none, `Start` does not invoke it and
still counts it as started.  If the hook has a stop procedure and was
counted, `Stop` runs it, records what it returned, and what it does to the
world is there when `Stop` returns; this holds in particular for a hook with
a stop procedure only.  If it has none, `Stop` does not invoke it, so it adds
no error.  `Stop` takes `numStarted` back to zero, un-counting every hook.
Here a `Hook` struct has a start or stop procedure when the callback is set,
and a hook of any other type, a pointer to a `Hook` included, always has
both, namely its methods, so it is never skipped. -/
theorem one_sided_hooks (lc : DefaultLifecycle σ) (ctx : Context σ) (w : σ)
    (i : Nat) (hook : HookInterface σ) (ctx' : Context σ) (w' : σ)
    (h0 : lc.numStarted = 0)
    (hi : lc.hooks[i]? = some hook)
    (hok : ∀ (j : Nat) (h : HookInterface σ), j < i → lc.hooks[j]? = some h →
      (h.Start (WithCancel ctx) (worldAfterStarts (WithCancel ctx) (lc.hooks.take j) w)).1 = none)
    (hctx : NeverFires ctx') :
    (∀ (hk : Hook σ) (c : HookContext σ) (v : σ),
      (hk.OnStart = none → hk.Start c v = (none, v)) ∧
      (∀ f, hk.OnStart = some f → hk.Start c v = f.run c v) ∧
      (hk.OnStop = none → hk.Stop c v = (none, v)) ∧
      (∀ g, hk.OnStop = some g → hk.Stop c v = g.run c v)) ∧
    (∀ hk, hook = HookInterface.hook hk →
      startProcOf hook = hk.OnStart.map (fun f => f.run) ∧
      stopProcOf hook = hk.OnStop.map (fun g => g.run)) ∧
    (∀ t s p, hook = HookInterface.object t s p →
      startProcOf hook = some s ∧ stopProcOf hook = some p) ∧
    (∀ f, startProcOf hook = some f →
      (⟨ProcKind.start, i,
          (f (WithCancel ctx) (worldAfterStarts (WithCancel ctx) (lc.hooks.take i) w)).1⟩ : Call) ∈
        (lc.Start ctx w).calls) ∧
    (startProcOf hook = none →
      i ∉ (lc.Start ctx w).calls.map (fun c => c.index) ∧
      i < (lc.Start ctx w).lc.numStarted) ∧
    (∀ g, stopProcOf hook = some g → i < (lc.Start ctx w).lc.numStarted →
      (∃ v, (⟨ProcKind.stop, i, (g (WithCancel ctx') v).1⟩ : Call) ∈
        ((lc.Start ctx w).lc.Stop ctx' w').calls) ∧
      ∀ Q : σ → Prop, (∀ v, Q (g (WithCancel ctx') v).2) →
        (∀ h ∈ lc.hooks, ∀ p, stopProcOf h = some p → ∀ v, Q v → Q (p (WithCancel ctx') v).2) →
        Q ((lc.Start ctx w).lc.Stop ctx' w').world) ∧
    (startProcOf hook = none → ∀ g, stopProcOf hook = some g →
      ∃ v, (⟨ProcKind.stop, i, (g (WithCancel ctx') v).1⟩ : Call) ∈
        ((lc.Start ctx w).lc.Stop ctx' w').calls) ∧
    (stopProcOf hook = none →
      i ∉ ((lc.Start ctx w).lc.Stop ctx' w').calls.map (fun c => c.index)) ∧
    ((lc.Start ctx w).lc.Stop ctx' w').lc.numStarted = 0 := by
  have hcalls : (lc.Start ctx w).calls =
      (startLoop (WithCancel ctx) lc.hooks 0 0 w []).2.2.2 := by
    show (startLoop (WithCancel ctx) lc.hooks 0 lc.numStarted w []).2.2.2 = _
    rw [h0]
  have hnum : (lc.Start ctx w).lc.numStarted =
      (startLoop (WithCancel ctx) lc.hooks 0 0 w []).2.1 := by
    show (startLoop (WithCancel ctx) lc.hooks 0 lc.numStarted w []).2.1 = _
    rw [h0]
  have hh : (lc.Start ctx w).lc.hooks = lc.hooks := rfl
  have hle : (lc.Start ctx w).lc.numStarted ≤ lc.hooks.length := by
    rw [hnum]
    have := startLoop_numStarted_le (WithCancel ctx) lc.hooks 0 0 w []
    omega
  have hle' : (lc.Start ctx w).lc.numStarted ≤ (lc.Start ctx w).lc.hooks.length := hle
  obtain ⟨s1, _, s3, _⟩ := Stop_never_fires (lc.Start ctx w).lc ctx' w' hle' hctx
  have hstopmem : ∀ k, k ∈ ((lc.Start ctx w).lc.Stop ctx' w').calls.map (fun c => c.index) ↔
      k < (lc.Start ctx w).lc.numStarted ∧
        ∃ h, lc.hooks[k]? = some h ∧ (stopProcOf h).isSome = true := by
    intro k
    rw [s3]
    exact mem_stop_indices_iff _ _ _
  have hnostart : startProcOf hook = none → i < (lc.Start ctx w).lc.numStarted := by
    intro hn
    have hb : (getHookFuncName hook true).2 = false := by
      rw [has_start_eq_startProcOf, hn]; rfl
    have := (startLoop_reaches (WithCancel ctx) lc.hooks i hook 0 0 w [] hi hok).2 hb
    rw [hnum]
    omega
  have hstopcall : ∀ g, stopProcOf hook = some g → i < (lc.Start ctx w).lc.numStarted →
      ∃ v, (⟨ProcKind.stop, i, (g (WithCancel ctx') v).1⟩ : Call) ∈
        ((lc.Start ctx w).lc.Stop ctx' w').calls := by
    intro g hg hlt
    have hs : (getHookFuncName hook false).2 = true := by
      rw [has_stop_eq_stopProcOf, hg]; rfl
    obtain ⟨v, hv⟩ := stopLoop_reaches_call (WithCancel ctx') lc.hooks hctx i hook hi hs
      (lc.Start ctx w).lc.numStarted [] w' [] hlt hle
    rw [Stop_eq_stopProcOf hook g hg] at hv
    exact ⟨v, hv⟩
  refine ⟨?_, ?_, ?_, ?_, ?_, ?_, ?_, ?_, s1⟩
  · intro hk c v
    refine ⟨?_, ?_, ?_, ?_⟩
    · intro hn; simp [Hook.Start, hn]
    · intro f hf; simp [Hook.Start, hf]
    · intro hn; simp [Hook.Stop, hn]
    · intro g hg; simp [Hook.Stop, hg]
  · intro hk hhk
    subst hhk
    exact ⟨rfl, rfl⟩
  · intro t s p hobj
    subst hobj
    exact ⟨rfl, rfl⟩
  · intro f hf
    have hs : (getHookFuncName hook true).2 = true := by
      rw [has_start_eq_startProcOf, hf]; rfl
    have := startLoop_reaches_call (WithCancel ctx) lc.hooks i hook 0 0 w [] hi hok hs
    rw [Start_eq_startProcOf hook f hf, Nat.zero_add] at this
    rw [hcalls]
    exact this
  · intro hn
    refine ⟨?_, hnostart hn⟩
    intro hmem
    obtain ⟨new, c1, _, c3, _⟩ := startLoop_calls (WithCancel ctx) lc.hooks 0 0 w []
    rw [hcalls, c1, List.nil_append, c3] at hmem
    have hmem2 : i ∈ startOrder lc.hooks := List.mem_of_mem_take hmem
    obtain ⟨h, hh1, hh2⟩ := (mem_startOrder_iff_startProcOf lc.hooks i).1 hmem2
    rw [hi] at hh1
    cases hh1
    rw [hn] at hh2
    cases hh2
  · intro g hg hlt
    refine ⟨hstopcall g hg hlt, ?_⟩
    intro Q hest hkeep
    have hs : (getHookFuncName hook false).2 = true := by
      rw [has_stop_eq_stopProcOf, hg]; rfl
    have hQ : ∀ h ∈ lc.hooks, ∀ v, Q v → Q (h.Stop (WithCancel ctx') v).2 := by
      intro h hmem v hv
      cases hp : stopProcOf h with
      | none =>
        rw [Stop_eq_of_no_stopProc h hp]
        exact hv
      | some p =>
        rw [Stop_eq_stopProcOf h p hp]
        exact hkeep h hmem p hp v hv
    have hEst : ∀ v, True → Q (hook.Stop (WithCancel ctx') v).2 := by
      intro v _
      rw [Stop_eq_stopProcOf hook g hg]
      exact hest v
    exact stopLoop_establishes (WithCancel ctx') (fun _ => True) Q lc.hooks i hook hi hs hctx
      (fun _ _ _ _ => trivial) hQ hEst (lc.Start ctx w).lc.numStarted [] w' [] hlt hle trivial
  · intro hn g hg
    exact hstopcall g hg (hnostart hn)
  · intro hn hmem
    obtain ⟨_, h, hh1, hh2⟩ := (hstopmem i).1 hmem
    rw [hi] at hh1
    cases hh1
    rw [hn] at hh2
    cases hh2

/-- A start-only hook, a stop-only hook and an inert hook, all `Hook` structs:
`Start` runs `S.start` only and counts all three; `Stop` runs `T.stop` only,
the procedure of the stop-only hook at index 1, and un-counts all three. -/
theorem one_sided_hooks_witness :
    (1 ∉ (lcMixed.Start background 0).calls.map (fun c => c.index) ∧
      1 < (lcMixed.Start background 0).lc.numStarted) ∧
    (∃ v, (⟨ProcKind.stop, 1, ((succeeds "T.stop").run (WithCancel background) v).1⟩ : Call) ∈
      ((lcMixed.Start background 0).lc.Stop background 1).calls) ∧
    (lcMixed.Start background 0).calls = [⟨ProcKind.start, 0, none⟩] ∧
    (lcMixed.Start background 0).lc.numStarted = 3 ∧
    ((lcMixed.Start background 0).lc.Stop background 1).calls = [⟨ProcKind.stop, 1, none⟩] ∧
    ((lcMixed.Start background 0).lc.Stop background 1).world = 2 ∧
    ((lcMixed.Start background 0).lc.Stop background 1).lc.numStarted = 0 :=
  have h := one_sided_hooks lcMixed background 0 1 hookStopOnly background 1 rfl rfl
    (by
      intro j h hj hjh
      interval_cases j
      simp [lcMixed] at hjh; subst hjh; rfl)
    (fun _ => rfl)
  ⟨h.2.2.2.2.1 rfl, h.2.2.2.2.2.2.1 rfl (succeeds "T.stop").run rfl, rfl, rfl, rfl, rfl,
    h.2.2.2.2.2.2.2.2⟩

end WindowClaims

/-! ## The claim about `PrintHooks` -/

section DescribeClaims

variable {σ : Type}

/-- C12: `PrintHooks` prints, after the heading for start hooks, the names of
the start procedures of exactly the hooks that have one, in registration
order, and, after the heading for stop hooks, the names of the stop procedures
of exactly the hooks that have one, in reverse registration order.  These are
the procedures, in the order, that a `Start` from `numStarted = 0` in which
every start procedure succeeds and a following `Stop` whose context never
fires invoke.  `PrintHooks` leaves the registry and `numStarted` as they
are. -/
theorem PrintHooks_mirrors_run (lc : DefaultLifecycle σ) (ctx : Context σ) (w : σ)
    (ctx' : Context σ) (w' : σ)
    (h0 : lc.numStarted = 0)
    (hok : ∀ (j : Nat) (h : HookInterface σ), lc.hooks[j]? = some h →
      (h.Start (WithCancel ctx) (worldAfterStarts (WithCancel ctx) (lc.hooks.take j) w)).1
        = none)
    (hctx : NeverFires ctx') :
    lc.PrintHooks.2 =
      ["Start hooks:\n\n"] ++
      (startOrder lc.hooks).map (fun i => listed (procName lc.hooks true i)) ++
      ["\nStop hooks:\n\n"] ++
      ((List.range lc.hooks.length).reverse.filter (hasStopAt lc.hooks)).map
        (fun i => listed (procName lc.hooks false i)) ∧
    (lc.Start ctx w).calls.map (fun c => c.index) = startOrder lc.hooks ∧
    ((lc.Start ctx w).lc.Stop ctx' w').calls.map (fun c => c.index) =
      (List.range lc.hooks.length).reverse.filter (hasStopAt lc.hooks) ∧
    lc.PrintHooks.2 =
      ["Start hooks:\n\n"] ++
      (lc.Start ctx w).calls.map (fun c => listed (procName lc.hooks true c.index)) ++
      ["\nStop hooks:\n\n"] ++
      ((lc.Start ctx w).lc.Stop ctx' w').calls.map
        (fun c => listed (procName lc.hooks false c.index)) ∧
    lc.PrintHooks.1 = lc := by
  have hprint : lc.PrintHooks.2 =
      ["Start hooks:\n\n"] ++
      (startOrder lc.hooks).map (fun i => listed (procName lc.hooks true i)) ++
      ["\nStop hooks:\n\n"] ++
      ((List.range lc.hooks.length).reverse.filter (hasStopAt lc.hooks)).map
        (fun i => listed (procName lc.hooks false i)) := by
    have h1 := printStartHooks_eq lc.hooks []
    have h2 := printStopHooks_eq lc.hooks lc.hooks.length (Nat.le_refl _)
    rw [stopWindow_zero] at h2
    simp only [List.length_nil, List.nil_append] at h1
    show ["Start hooks:\n\n"] ++ printStartHooks lc.hooks ++ ["\nStop hooks:\n\n"] ++
      printStopHooks lc.hooks lc.hooks.length (Nat.le_refl _) = _
    rw [h1, h2]
    rfl
  have hs := startLoop_all_succeed (WithCancel ctx) lc.hooks 0 lc.numStarted w [] hok
  obtain ⟨new, c1, _, _, _, c5, _⟩ :=
    startLoop_calls (WithCancel ctx) lc.hooks 0 lc.numStarted w []
  have hc : (lc.Start ctx w).calls = new := by
    show (startLoop (WithCancel ctx) lc.hooks 0 lc.numStarted w []).2.2.2 = new
    rw [c1]; rfl
  have hstart : (lc.Start ctx w).calls.map (fun c => c.index) = startOrder lc.hooks := by
    rw [hc]; exact (c5 hs.1).1
  have hn : (lc.Start ctx w).lc.numStarted = lc.hooks.length := by
    show (startLoop (WithCancel ctx) lc.hooks 0 lc.numStarted w []).2.1 = _
    rw [hs.2, h0, Nat.zero_add]
  have hh : (lc.Start ctx w).lc.hooks = lc.hooks := rfl
  have hle : (lc.Start ctx w).lc.numStarted ≤ (lc.Start ctx w).lc.hooks.length := by
    rw [hn, hh]
  obtain ⟨_, _, s3, _⟩ := Stop_never_fires (lc.Start ctx w).lc ctx' w' hle hctx
  rw [hn, hh] at s3
  refine ⟨hprint, hstart, s3, ?_, rfl⟩
  rw [hprint, ← hstart, ← s3, List.map_map, List.map_map]
  rfl

/-- Hooks `A` and `B`: the listing names `A.start`, `B.start`, then `B.stop`,
`A.stop`, as a run of `Start` and `Stop` invokes them. -/
theorem PrintHooks_mirrors_run_witness :
    lcAB.PrintHooks.2 =
      ["Start hooks:\n\n", "  • A.start\n", "  • B.start\n",
        "\nStop hooks:\n\n", "  • B.stop\n", "  • A.stop\n"] ∧
    (lcAB.Start background 0).calls.map (fun c => c.index) = startOrder lcAB.hooks ∧
    ((lcAB.Start background 0).lc.Stop background 2).calls.map (fun c => c.index) =
      (List.range lcAB.hooks.length).reverse.filter (hasStopAt lcAB.hooks) ∧
    lcAB.PrintHooks.1 = lcAB :=
  have h := PrintHooks_mirrors_run lcAB background 0 background 2 rfl
    (by
      intro j h hjh
      have hj : j < 2 := by
        have := (List.getElem?_eq_some_iff.1 hjh).1
        simpa [lcAB] using this
      interval_cases j
      · simp [lcAB] at hjh; subst hjh; rfl
      · simp [lcAB] at hjh; subst hjh; rfl)
    (fun _ => rfl)
  ⟨by decide, h.2.1, h.2.2.1, h.2.2.2.2⟩

end DescribeClaims

/-! ## The claim about the child context -/

section ContextClaims

variable {σ : Type}

/-- C15: in one `Start` or `Stop` call every hook procedure is handed the one
child context made from the caller's context: the call gives the same result
for any other hooks that have the same procedures doing the same with that
child, whatever they would do with another context.  When the call returns,
by whichever path (`Start` with or without error; `Stop` run to the end,
abandoned, or panicking), the child is cancelled.  The cancel leaves what the
caller's context reports as it was at the end of the loop, and when no hook
procedure changes what the caller's context reports, it reports after the
call what it reported before. -/
theorem child_context_scoped (lc : DefaultLifecycle σ) (ctx : Context σ)
    (scope : CancelCtx σ ctx) (w : σ) (hooks' : List (HookInterface σ))
    (hagree : List.Forall₂ (SameAt scope.child) lc.hooks hooks') :
    ((lc.StartScoped ctx scope w).err =
        (DefaultLifecycle.StartScoped { lc with hooks := hooks' } ctx scope w).err ∧
      (lc.StartScoped ctx scope w).lc.numStarted =
        (DefaultLifecycle.StartScoped { lc with hooks := hooks' } ctx scope w).lc.numStarted ∧
      (lc.StartScoped ctx scope w).world =
        (DefaultLifecycle.StartScoped { lc with hooks := hooks' } ctx scope w).world ∧
      (lc.StartScoped ctx scope w).calls =
        (DefaultLifecycle.StartScoped { lc with hooks := hooks' } ctx scope w).calls) ∧
    ((lc.StopScoped ctx scope w).outcome =
        (DefaultLifecycle.StopScoped { lc with hooks := hooks' } ctx scope w).outcome ∧
      (lc.StopScoped ctx scope w).lc.numStarted =
        (DefaultLifecycle.StopScoped { lc with hooks := hooks' } ctx scope w).lc.numStarted ∧
      (lc.StopScoped ctx scope w).world =
        (DefaultLifecycle.StopScoped { lc with hooks := hooks' } ctx scope w).world ∧
      (lc.StopScoped ctx scope w).calls =
        (DefaultLifecycle.StopScoped { lc with hooks := hooks' } ctx scope w).calls) ∧
    (scope.child.Err (lc.StartScoped ctx scope w).world).isSome = true ∧
    (scope.child.Err (lc.StopScoped ctx scope w).world).isSome = true ∧
    ctx.Err (lc.StartScoped ctx scope w).world =
      ctx.Err (startLoop scope.child lc.hooks 0 lc.numStarted w []).2.2.1 ∧
    ctx.Err (lc.StopScoped ctx scope w).world =
      ctx.Err (stopLoop scope.child lc.hooks lc.numStarted [] w []).2.2.1 ∧
    ((∀ h ∈ lc.hooks, ∀ v, ctx.Err (h.Start scope.child v).2 = ctx.Err v) →
      ctx.Err (lc.StartScoped ctx scope w).world = ctx.Err w) ∧
    ((∀ h ∈ lc.hooks, ∀ v, ctx.Err (h.Stop scope.child v).2 = ctx.Err v) →
      ctx.Err (lc.StopScoped ctx scope w).world = ctx.Err w) := by
  have e1 := startLoop_congr_hooks scope.child lc.hooks hooks' hagree 0 lc.numStarted w []
  have e2 := stopLoop_congr_hooks scope.child lc.hooks hooks' hagree lc.numStarted [] w []
  have hs : ctx.Err (lc.StartScoped ctx scope w).world =
      ctx.Err (startLoop scope.child lc.hooks 0 lc.numStarted w []).2.2.1 :=
    scope.cancel_keeps_parent _
  have ht : ctx.Err (lc.StopScoped ctx scope w).world =
      ctx.Err (stopLoop scope.child lc.hooks lc.numStarted [] w []).2.2.1 :=
    scope.cancel_keeps_parent _
  refine ⟨?_, ?_, scope.cancel_fires _, scope.cancel_fires _, hs, ht, ?_, ?_⟩
  · simp only [DefaultLifecycle.StartScoped, e1, and_self]
  · simp only [DefaultLifecycle.StopScoped, e2, and_self]
  · intro hframe
    rw [hs]
    exact startLoop_preserves scope.child (fun v => ctx.Err v = ctx.Err w) lc.hooks 0
      lc.numStarted w [] (fun h hh v hv => (hframe h hh v).trans hv) rfl
  · intro hframe
    rw [ht]
    exact stopLoop_preserves scope.child (fun v => ctx.Err v = ctx.Err w) lc.hooks
      (fun h hh v hv => (hframe h hh v).trans hv) lc.numStarted [] w [] rfl

/-- The hook `hookP` stopped under a child of `parentCtx`: a hook that would
fail if it were handed the parent gives the same run, the child is cancelled
at the return and the parent is not. -/
theorem child_context_scoped_witness :
    (lcP.StopScoped parentCtx childScope (0, false)).calls =
      (DefaultLifecycle.StopScoped { lcP with hooks := [hookQ] } parentCtx childScope
        (0, false)).calls ∧
    (childScope.child.Err (lcP.StopScoped parentCtx childScope (0, false)).world).isSome = true ∧
    (childScope.child.Err (lcP.StartScoped parentCtx childScope (0, false)).world).isSome = true ∧
    parentCtx.Err (lcP.StopScoped parentCtx childScope (0, false)).world = none :=
  have h := child_context_scoped lcP parentCtx childScope (0, false) [hookQ]
    (List.Forall₂.cons
      ⟨fun b => by cases b <;> rfl, fun _ => rfl, fun _ => rfl⟩ List.Forall₂.nil)
  ⟨h.2.1.2.2.2, h.2.2.2.1, h.2.2.1, h.2.2.2.2.2.1.trans rfl⟩

end ContextClaims

/-! ## The claim about hooks appended during a call -/

section ReentrantClaims

variable {σ : Type}

/-- C18: let the registry be reachable by the hook procedures, which only ever
append to it, and let the start procedure of hook `i` of the snapshot, which
the `Start` call gets to, call `Append(late)`.  Then the call invokes that
procedure; every procedure it invokes belongs to a hook of the snapshot taken
at entry, so the appended hook, which comes after the snapshot, is not
invoked in this call; and when the call returns the registry is the snapshot
followed by the appended hooks, `late` among them, ready for later calls.  The
same holds for a stop procedure of a started hook in a `Stop` call whose
context never fires. -/
theorem late_append_not_in_flight (sl : SharedLifecycle σ) (ctx : Context σ) (w : σ)
    (i : Nat) (hook late : HookInterface σ)
    (hi : (sl.registry w)[i]? = some hook) :
    ((getHookFuncName hook true).2 = true →
      (∀ (j : Nat) (h : HookInterface σ), j < i → (sl.registry w)[j]? = some h →
        (h.Start (WithCancel ctx)
          (worldAfterStarts (WithCancel ctx) ((sl.registry w).take j) w)).1 = none) →
      (∀ v, sl.registry (hook.Start (WithCancel ctx) v).2 = ((sl.view v).Append late).hooks) →
      (∀ g ∈ sl.registry w, ∀ v, ∃ l,
        sl.registry (g.Start (WithCancel ctx) v).2 = sl.registry v ++ l) →
      i ∈ (sl.Start ctx w).calls.map (fun c => c.index) ∧
      (∀ c ∈ (sl.Start ctx w).calls, c.index < (sl.registry w).length) ∧
      ∃ l, sl.registry (sl.Start ctx w).world = sl.registry w ++ l ∧ late ∈ l) ∧
    ((getHookFuncName hook false).2 = true →
      i < sl.numStarted → sl.numStarted ≤ (sl.registry w).length → NeverFires ctx →
      (∀ v, sl.registry (hook.Stop (WithCancel ctx) v).2 = ((sl.view v).Append late).hooks) →
      (∀ g ∈ sl.registry w, ∀ v, ∃ l,
        sl.registry (g.Stop (WithCancel ctx) v).2 = sl.registry v ++ l) →
      i ∈ (sl.Stop ctx w).calls.map (fun c => c.index) ∧
      (∀ c ∈ (sl.Stop ctx w).calls, c.index < (sl.registry w).length) ∧
      ∃ l, sl.registry (sl.Stop ctx w).world = sl.registry w ++ l ∧ late ∈ l) := by
  have hPstep : ∀ (f : σ → σ), (∀ v, ∃ l, sl.registry (f v) = sl.registry v ++ l) →
      ∀ v, (∃ l, sl.registry v = sl.registry w ++ l) →
        ∃ l, sl.registry (f v) = sl.registry w ++ l := by
    intro f hf v hv
    obtain ⟨l, hl⟩ := hv
    obtain ⟨l', hl'⟩ := hf v
    exact ⟨l ++ l', by rw [hl', hl, List.append_assoc]⟩
  have hQstep : ∀ (f : σ → σ), (∀ v, ∃ l, sl.registry (f v) = sl.registry v ++ l) →
      ∀ v, (∃ l, sl.registry v = sl.registry w ++ l ∧ late ∈ l) →
        ∃ l, sl.registry (f v) = sl.registry w ++ l ∧ late ∈ l := by
    intro f hf v hv
    obtain ⟨l, hl, hm⟩ := hv
    obtain ⟨l', hl'⟩ := hf v
    exact ⟨l ++ l', by rw [hl', hl, List.append_assoc], List.mem_append_left _ hm⟩
  have hEst : ∀ (f : σ → σ), (∀ v, sl.registry (f v) = ((sl.view v).Append late).hooks) →
      ∀ v, (∃ l, sl.registry v = sl.registry w ++ l) →
        ∃ l, sl.registry (f v) = sl.registry w ++ l ∧ late ∈ l := by
    intro f hf v hv
    obtain ⟨l, hl⟩ := hv
    refine ⟨l ++ [late], ?_, by simp⟩
    rw [hf v]
    show sl.registry v ++ [late] = _
    rw [hl, List.append_assoc]
  refine ⟨?_, ?_⟩
  · intro hs hok happ hext
    refine ⟨?_, ?_, ?_⟩
    · have := (startLoop_reaches (WithCancel ctx) (sl.registry w) i hook 0 sl.numStarted w []
        hi hok).1 hs
      rw [Nat.zero_add] at this
      exact this
    · intro c hc
      obtain ⟨new, c1, _, c3, _⟩ :=
        startLoop_calls (WithCancel ctx) (sl.registry w) 0 sl.numStarted w []
      have hc' : c ∈ new := by
        have : (sl.Start ctx w).calls = new := by
          show (startLoop (WithCancel ctx) (sl.registry w) 0 sl.numStarted w []).2.2.2 = new
          rw [c1]; rfl
        rw [← this]; exact hc
      have hmem : c.index ∈ new.map (fun c => c.index) := List.mem_map_of_mem _ hc'
      rw [c3] at hmem
      obtain ⟨h, hh, _⟩ := (mem_startOrder_iff _ _).1 (List.mem_of_mem_take hmem)
      exact (List.getElem?_eq_some_iff.1 hh).1
    · exact startLoop_establishes (WithCancel ctx)
        (fun v => ∃ l, sl.registry v = sl.registry w ++ l)
        (fun v => ∃ l, sl.registry v = sl.registry w ++ l ∧ late ∈ l)
        (sl.registry w) i hook 0 sl.numStarted w [] hi hs hok
        (fun g hg => hPstep _ (hext g hg))
        (fun g hg => hQstep _ (hext g hg))
        (hEst _ happ) ⟨[], by simp⟩
  · intro hs hlt hk hctx happ hext
    obtain ⟨_, _, s3, _⟩ := Stop_never_fires (sl.view w) ctx w hk hctx
    have hmemiff : ∀ k, k ∈ (sl.Stop ctx w).calls.map (fun c => c.index) ↔
        k < sl.numStarted ∧ hasStopAt (sl.registry w) k = true := by
      intro k
      show k ∈ ((sl.view w).Stop ctx w).calls.map (fun c => c.index) ↔ _
      rw [s3]
      simp [SharedLifecycle.view]
    refine ⟨?_, ?_, ?_⟩
    · refine (hmemiff i).2 ⟨hlt, ?_⟩
      simp [hasStopAt, hi, hs]
    · intro c hc
      have := ((hmemiff c.index).1 (List.mem_map_of_mem _ hc)).1
      exact Nat.lt_of_lt_of_le this hk
    · exact stopLoop_establishes (WithCancel ctx)
        (fun v => ∃ l, sl.registry v = sl.registry w ++ l)
        (fun v => ∃ l, sl.registry v = sl.registry w ++ l ∧ late ∈ l)
        (sl.registry w) i hook hi hs hctx
        (fun g hg => hPstep _ (hext g hg))
        (fun g hg => hQstep _ (hext g hg))
        (hEst _ happ) sl.numStarted [] w [] hlt hk ⟨[], by simp⟩

/-- The start procedure of `hookAppender` appends `hookLate` while `Start`
runs: `Start` invokes that one procedure only, and afterwards the registry
holds `hookAppender` followed by `hookLate`. -/
theorem late_append_not_in_flight_witness :
    (0 ∈ (slAppender.Start background 0).calls.map (fun c => c.index) ∧
      (∀ c ∈ (slAppender.Start background 0).calls, c.index < (slAppender.registry 0).length) ∧
      ∃ l, slAppender.registry (slAppender.Start background 0).world =
        slAppender.registry 0 ++ l ∧ hookLate ∈ l) ∧
    (slAppender.Start background 0).calls.map (fun c => c.index) = [0] ∧
    (slAppender.registry (slAppender.Start background 0).world).length = 2 :=
  ⟨(late_append_not_in_flight slAppender background 0 0 hookAppender hookLate rfl).1 rfl
      (by intro j h hj; omega)
      (by
        intro v
        show hookAppender :: List.replicate (v + 1) hookLate =
          (hookAppender :: List.replicate v hookLate) ++ [hookLate]
        rw [List.replicate_succ', List.cons_append])
      (by
        intro g hg v
        simp only [slAppender, List.replicate_zero, List.mem_singleton] at hg
        subst hg
        refine ⟨[hookLate], ?_⟩
        show hookAppender :: List.replicate (v + 1) hookLate =
          (hookAppender :: List.replicate v hookLate) ++ [hookLate]
        rw [List.replicate_succ', List.cons_append]),
    rfl, rfl⟩

end ReentrantClaims

/-! ## The claim about the mutex -/

section MutexClaims

variable {σ : Type}

/-- C16, refuted as stated: in a `Start` of hooks `A` and `B` the counter
`numStarted` is read and written while the mutex is not held, whereas the
registry is only read while it is held. -/
theorem Start_counter_outside_mutex :
    obeys isCounterAccess true false (lcAB.StartAccesses background 0) = false ∧
    obeys isRegistryAccess true false (lcAB.StartAccesses background 0) = true ∧
    lcAB.StartAccesses background 0 =
      [Access.lock, Access.readHooks, Access.readHooks, Access.unlock,
        Access.invoke ⟨ProcKind.start, 0, none⟩, Access.readNumStarted, Access.writeNumStarted,
        Access.invoke ⟨ProcKind.start, 1, none⟩, Access.readNumStarted,
        Access.writeNumStarted] :=
  ⟨rfl, rfl, rfl⟩

/-- C16, amended: the registry is guarded by the mutex, in that every read and
every write of `lc.hooks` in `Append`, `Start`, `Stop` and `PrintHooks`
happens while the mutex is held, and no hook procedure is invoked while the
mutex is held; the counter `numStarted` is not touched by `Append` and
`PrintHooks`, and `Start` and `Stop` read and write it only after they have
released the mutex.  The hook procedures among the steps are those the
embedded `Start` and `Stop` invoke. -/
theorem mutex_guards_registry (lc : DefaultLifecycle σ) (ctx : Context σ) (w : σ)
    (hook : HookInterface σ) :
    (obeys isRegistryAccess true false (lc.AppendAccesses hook) = true ∧
      obeys isRegistryAccess true false (lc.StartAccesses ctx w) = true ∧
      obeys isRegistryAccess true false (lc.StopAccesses ctx w) = true ∧
      obeys isRegistryAccess true false lc.PrintHooksAccesses = true) ∧
    (obeys isInvoke false false (lc.AppendAccesses hook) = true ∧
      obeys isInvoke false false (lc.StartAccesses ctx w) = true ∧
      obeys isInvoke false false (lc.StopAccesses ctx w) = true ∧
      obeys isInvoke false false lc.PrintHooksAccesses = true) ∧
    ((∀ a ∈ lc.AppendAccesses hook, isCounterAccess a = false) ∧
      obeys isCounterAccess false false (lc.StartAccesses ctx w) = true ∧
      obeys isCounterAccess false false (lc.StopAccesses ctx w) = true ∧
      (∀ a ∈ lc.PrintHooksAccesses, isCounterAccess a = false)) ∧
    (invokesOf (lc.StartAccesses ctx w) = (lc.Start ctx w).calls ∧
      invokesOf (lc.StopAccesses ctx w) = (lc.Stop ctx w).calls) := by
  have hs := startLoopAccesses_kinds (WithCancel ctx) lc.hooks 0 w
  have ht := stopLoopAccesses_kinds (WithCancel ctx) lc.hooks lc.numStarted w
  have hs1 := obeys_unlocked isInvoke _ (fun a ha => (hs a ha).1)
  have hs2 := obeys_unlocked isCounterAccess _ (fun a ha => (hs a ha).1)
  have hs3 := obeys_vacuous isRegistryAccess true _ false (fun a ha => (hs a ha).2)
  have ht1 := obeys_unlocked isInvoke _ (fun a ha => (ht a ha).1)
  have ht2 := obeys_unlocked isCounterAccess _ (fun a ha => (ht a ha).1)
  have ht3 := obeys_vacuous isRegistryAccess true _ false (fun a ha => (ht a ha).2)
  have hp : ∀ a ∈ lc.PrintHooksAccesses,
      a = Access.lock ∨ a = Access.readHooks ∨ a = Access.unlock := by
    intro a ha
    simp only [DefaultLifecycle.PrintHooksAccesses, List.cons_append, List.nil_append,
      List.mem_cons, List.mem_append, List.mem_replicate, List.mem_singleton,
      List.not_mem_nil, or_false] at ha
    rcases ha with h | h | h | h | h
    · exact Or.inl h
    · exact Or.inr (Or.inl h)
    · exact Or.inr (Or.inl h)
    · exact Or.inr (Or.inl h.2)
    · exact Or.inr (Or.inr h)
  have hpr : ∀ (k : Nat) (t : List Access), obeys isRegistryAccess true true t = true →
      obeys isRegistryAccess true true (List.replicate k Access.readHooks ++ t) = true := by
    intro k t h
    induction k with
    | zero => simpa using h
    | succ k ih =>
      simp only [List.replicate_succ, List.cons_append, obeys, heldAfter, isRegistryAccess,
        beq_self_eq_true, Bool.or_true, Bool.true_and]
      exact ih
  refine ⟨⟨rfl, ?_, ?_, ?_⟩, ⟨rfl, ?_, ?_, ?_⟩, ⟨?_, ?_, ?_, ?_⟩, ?_, ?_⟩
  · simpa [DefaultLifecycle.StartAccesses, obeys, heldAfter, isRegistryAccess] using hs3
  · simpa [DefaultLifecycle.StopAccesses, obeys, heldAfter, isRegistryAccess] using ht3
  · have := hpr lc.hooks.length [Access.unlock] rfl
    simpa [DefaultLifecycle.PrintHooksAccesses, obeys, heldAfter, isRegistryAccess] using this
  · simpa [DefaultLifecycle.StartAccesses, obeys, heldAfter, isInvoke] using hs1
  · simpa [DefaultLifecycle.StopAccesses, obeys, heldAfter, isInvoke] using ht1
  · refine obeys_vacuous isInvoke false _ false ?_
    intro a ha
    rcases hp a ha with rfl | rfl | rfl <;> rfl
  · intro a ha
    simp only [DefaultLifecycle.AppendAccesses, List.mem_cons, List.mem_singleton,
      List.not_mem_nil, or_false] at ha
    rcases ha with rfl | rfl | rfl | rfl <;> rfl
  · simpa [DefaultLifecycle.StartAccesses, obeys, heldAfter, isCounterAccess] using hs2
  · simpa [DefaultLifecycle.StopAccesses, obeys, heldAfter, isCounterAccess] using ht2
  · intro a ha
    rcases hp a ha with rfl | rfl | rfl <;> rfl
  · have := startLoop_invokes (WithCancel ctx) lc.hooks 0 lc.numStarted w []
    show invokesOf _ = (startLoop (WithCancel ctx) lc.hooks 0 lc.numStarted w []).2.2.2
    rw [this]
    simp [DefaultLifecycle.StartAccesses, invokesOf]
  · have := stopLoop_invokes (WithCancel ctx) lc.hooks lc.numStarted [] w []
    show invokesOf _ = (stopLoop (WithCancel ctx) lc.hooks lc.numStarted [] w []).2.2.2
    rw [this]
    simp [DefaultLifecycle.StopAccesses, invokesOf]

end MutexClaims

end Hive
